import Mathlib

/-
Verification of the layout-tolerant field extractor of
`bill_extractor_app.py` (energy-bill-extractor).

The Python source is shallowly embedded over `List Char`:
strings are lists of characters, Python `re` searches are hand-rolled
deterministic scanners that realise the concrete patterns of the source
(the patterns involved are backtracking-free, as argued at each scanner),
`None` becomes `Option`, and the `"Not Found"` sentinel is kept as a
string.  Python's `str.lower`/`str.strip`/`str.replace`/`splitlines`
are modelled for ASCII text with LF line breaks, which covers every
input considered here.
-/

namespace BillExtractor

/-! ### Character classes (ASCII, as used by Python `re` on this input) -/

/-- ASCII lowercasing (Python `str.lower` restricted to ASCII), written as
an explicit table over the uppercase letters. -/
def asciiLower (c : Char) : Char :=
  match c with
  | 'A' => 'a' | 'B' => 'b' | 'C' => 'c' | 'D' => 'd' | 'E' => 'e' | 'F' => 'f'
  | 'G' => 'g' | 'H' => 'h' | 'I' => 'i' | 'J' => 'j' | 'K' => 'k' | 'L' => 'l'
  | 'M' => 'm' | 'N' => 'n' | 'O' => 'o' | 'P' => 'p' | 'Q' => 'q' | 'R' => 'r'
  | 'S' => 's' | 'T' => 't' | 'U' => 'u' | 'V' => 'v' | 'W' => 'w' | 'X' => 'x'
  | 'Y' => 'y' | 'Z' => 'z'
  | c => c

def lowerL (s : List Char) : List Char := s.map asciiLower

def isAlphaChar (c : Char) : Bool :=
  ('A' ≤ c && c ≤ 'Z') || ('a' ≤ c && c ≤ 'z')

def isDigitChar (c : Char) : Bool := '0' ≤ c && c ≤ '9'

def isWordChar (c : Char) : Bool := isAlphaChar c || isDigitChar c || c == '_'

def isSpaceChar (c : Char) : Bool :=
  c == ' ' || c == '\t' || c == '\n' || c == '\r' || c == '\x0b' || c == '\x0c'

/-- `\b` seen from the left: the previous character (if any) is not a word
character.  Used at candidate start positions, where the current character
is itself a word character. -/
def prevNonWord : Option Char → Bool
  | none => true
  | some p => !isWordChar p

/-- `\b` seen from the right: the next character (if any) is not a word
character. -/
def noWordAhead : List Char → Bool
  | [] => true
  | c :: _ => !isWordChar c

/-! ### Basic string utilities -/

/-- Python `pat in hay` (substring containment). -/
def containsSub (pat : List Char) : List Char → Bool
  | [] => pat.isPrefixOf []
  | c :: t => pat.isPrefixOf (c :: t) || containsSub pat t

/-- Python `s.replace(",", "")`. -/
def stripCommas (s : List Char) : List Char := s.filter (fun c => c ≠ ',')

/-- Python `s.strip()`. -/
def pyStrip (s : List Char) : List Char :=
  ((s.dropWhile isSpaceChar).reverse.dropWhile isSpaceChar).reverse

/-- Split on LF; models Python `splitlines` for LF-separated text
(a trailing empty piece is produced, but the caller filters empty lines). -/
def splitLines : List Char → List (List Char)
  | [] => [[]]
  | c :: rest =>
    if c = '\n' then [] :: splitLines rest
    else
      match splitLines rest with
      | [] => [[c]]
      | l :: ls => (c :: l) :: ls

/-- `[ln.strip() for ln in pdf_text.splitlines() if ln.strip()]` -/
def toLines (text : List Char) : List (List Char) :=
  ((splitLines text).map pyStrip).filter (fun l => l ≠ [])

/-! ### Pattern constants -/

def sDot00000 : List Char := ".00000".data
def sMonth : List Char := "month".data
def sUnitsConsumed : List Char := "units consumed".data
def sLoadSanctioned : List Char := "load sanctioned".data
def sContractDemand : List Char := "contract demand".data
def sContDemand : List Char := "cont. demand".data
def sMaximumDemand : List Char := "maximum demand".data
def sMaxDemand : List Char := "max demand".data
def sMaximumDemand2 : List Char := "maximum  demand".data
def sNetMaxDemand : List Char := "net max demand".data
def sUnits : List Char := "units".data
def sConsumed : List Char := "consumed".data
def sTotalUnits : List Char := "total units".data
def sNetUnitsSupplied : List Char := "net units supplied".data
def sKw : List Char := "kw".data
def sKva : List Char := "kva".data
def notFoundL : List Char := "Not Found".data

/-- Python `chosen.replace(".00000", "")`: remove the non-overlapping
occurrences of `".00000"`, scanning left to right.  Fuelled structural
recursion; each step consumes at least one character, so fuel = length
is always enough. -/
def replAux : Nat → List Char → List Char
  | _, [] => []
  | 0, s => s
  | fuel + 1, c :: rest =>
    if sDot00000.isPrefixOf (c :: rest) then replAux fuel (rest.drop 5)
    else c :: replAux fuel rest

def replace00000 (s : List Char) : List Char := replAux s.length s

/-- Case-insensitive literal match of `lit` at the start of `s`
(`re.IGNORECASE` on an ASCII literal). -/
def ciPref (lit s : List Char) : Bool := lit.isPrefixOf (lowerL s)

/-! ### Scanner for `\b([A-Za-z]{3,}-\d{4})\b`
At a boundary position starting with a letter, the greedy letter class
must take the whole letter run (a shorter take is followed by a letter,
not `-`), then `-`, exactly four digits, and a right boundary. -/

def tryMonthAt (s : List Char) : Option (List Char) :=
  let letters := s.takeWhile isAlphaChar
  if letters.length ≥ 3 then
    match s.drop letters.length with
    | '-' :: r2 =>
      let d4 := r2.take 4
      if d4.length = 4 && d4.all isDigitChar && noWordAhead (r2.drop 4) then
        some (letters ++ '-' :: d4)
      else none
    | _ => none
  else none

def monthFindAux : Option Char → List Char → Option (List Char)
  | _, [] => none
  | prev, c :: rest =>
    match (if prevNonWord prev && isAlphaChar c then tryMonthAt (c :: rest) else none) with
    | some g => some g
    | none => monthFindAux (some c) rest

def monthFind (s : List Char) : Option (List Char) := monthFindAux none s

/-! ### Scanner for `\b(\d{3,6})\b`
Only a boundary position starting a digit run of length 3..6 followed by a
right boundary can match; mid-run positions fail the left `\b`, and longer
or shorter runs fail for every greedy take. -/

def tryDigits36At (s : List Char) : Option (List Char) :=
  let run := s.takeWhile isDigitChar
  if 3 ≤ run.length && run.length ≤ 6 && noWordAhead (s.drop run.length) then
    some run
  else none

def digits36Aux : Option Char → List Char → Option (List Char)
  | _, [] => none
  | prev, c :: rest =>
    match (if prevNonWord prev && isDigitChar c then tryDigits36At (c :: rest) else none) with
    | some g => some g
    | none => digits36Aux (some c) rest

def digits36Find (s : List Char) : Option (List Char) := digits36Aux none s

/-! ### Scanner for `(\d+(?:\.\d+)?)` (no boundaries): first digit run,
optionally followed by `.` and a further digit run. -/

def numTokenAt (s : List Char) : List Char :=
  let d := s.takeWhile isDigitChar
  match s.drop d.length with
  | '.' :: r2 =>
    let f := r2.takeWhile isDigitChar
    if f = [] then d else d ++ '.' :: f
  | _ => d

def firstNumericAux : List Char → List Char
  | [] => []
  | c :: rest => if isDigitChar c then numTokenAt (c :: rest) else firstNumericAux rest

/-- `extract_first_numeric`: first int/float of a line, commas removed;
`""` (here `[]`) if none. -/
def extract_first_numeric (text_line : List Char) : List Char :=
  firstNumericAux (stripCommas text_line)

/-! ### Fallback scanner `(\d{3,6})\s+units\s+consumed` (IGNORECASE) -/

/-- Consume a whitespace run (nonempty if `one`), then the literal `lit`
case-insensitively; return the rest. -/
def wsLit (one : Bool) (lit s : List Char) : Option (List Char) :=
  let k := (s.takeWhile isSpaceChar).length
  if one && k == 0 then none
  else
    let r := s.drop k
    if ciPref lit r then some (r.drop lit.length) else none

def tryUnitsBeforeAt (s : List Char) : Option (List Char) :=
  let run := s.takeWhile isDigitChar
  if 3 ≤ run.length && run.length ≤ 6 then
    match wsLit true sUnits (s.drop run.length) with
    | some r2 =>
      match wsLit true sConsumed r2 with
      | some _ => some run
      | none => none
    | none => none
  else none

def unitsBeforeFind : List Char → Option (List Char)
  | [] => none
  | c :: rest =>
    match (if isDigitChar c then tryUnitsBeforeAt (c :: rest) else none) with
    | some g => some g
    | none => unitsBeforeFind rest

/-! ### Fallback scanner `(?:total units|net units supplied)\s*(\d{3,6})`
(IGNORECASE); the group takes greedily at most six of the following
digits, at least three being required. -/

def tryUnitsAfterAt (s : List Char) : Option (List Char) :=
  let afterLabel : Option (List Char) :=
    if ciPref sTotalUnits s then some (s.drop sTotalUnits.length)
    else if ciPref sNetUnitsSupplied s then some (s.drop sNetUnitsSupplied.length)
    else none
  match afterLabel with
  | none => none
  | some r =>
    let r2 := r.drop (r.takeWhile isSpaceChar).length
    let run := r2.takeWhile isDigitChar
    if run.length ≥ 3 then some (run.take 6) else none

def unitsAfterFind : List Char → Option (List Char)
  | [] => none
  | c :: rest =>
    match tryUnitsAfterAt (c :: rest) with
    | some g => some g
    | none => unitsAfterFind rest

/-! ### `re.findall(r'(\d+(?:\.\d+))\s*(?:KW|KVA)', ...)` (IGNORECASE)
The fractional part is mandatory in this pattern.  A successful match
consumes up to the end of the KW/KVA token; scanning resumes there. -/

def tryKwAt (s : List Char) : Option (List Char × List Char) :=
  let d := s.takeWhile isDigitChar
  if d = [] then none
  else
    match s.drop d.length with
    | '.' :: r2 =>
      let f := r2.takeWhile isDigitChar
      if f = [] then none
      else
        let r3 := r2.drop f.length
        let r4 := r3.drop (r3.takeWhile isSpaceChar).length
        if ciPref sKw r4 then some (d ++ '.' :: f, r4.drop 2)
        else if ciPref sKva r4 then some (d ++ '.' :: f, r4.drop 3)
        else none
    | _ => none

def findAllKwAux : Nat → List Char → List (List Char)
  | _, [] => []
  | 0, _ => []
  | fuel + 1, c :: rest =>
    if isDigitChar c then
      match tryKwAt (c :: rest) with
      | some (g, r) => g :: findAllKwAux fuel r
      | none => findAllKwAux fuel rest
    else findAllKwAux fuel rest

def findAllKw (s : List Char) : List (List Char) := findAllKwAux s.length s

/-! ### `\s*(\d+(?:\.\d+)?)` after a label, and the two labelled fallback
searches for Contract Demand and Maximum Demand -/

def numGroupOpt (s : List Char) : Option (List Char) :=
  let r := s.drop (s.takeWhile isSpaceChar).length
  let d := r.takeWhile isDigitChar
  if d = [] then none
  else
    match r.drop d.length with
    | '.' :: r2 =>
      let f := r2.takeWhile isDigitChar
      if f = [] then some d else some (d ++ '.' :: f)
    | _ => some d

/-- `(?:contract demand|cont\. demand)\s*(\d+(?:\.\d+)?)` (IGNORECASE).
The two alternatives differ at their fifth character, so at most one can
match at a given position. -/
def tryCdAt (s : List Char) : Option (List Char) :=
  if ciPref sContractDemand s then numGroupOpt (s.drop sContractDemand.length)
  else if ciPref sContDemand s then numGroupOpt (s.drop sContDemand.length)
  else none

def cdFind : List Char → Option (List Char)
  | [] => none
  | c :: rest =>
    match tryCdAt (c :: rest) with
    | some g => some g
    | none => cdFind rest

/-- `(?:max demand|maximum demand|net max demand)\s*(\d+(?:\.\d+)?)`
(IGNORECASE); the three alternatives are pairwise non-overlapping at a
given position. -/
def tryMdAt (s : List Char) : Option (List Char) :=
  if ciPref sMaxDemand s then numGroupOpt (s.drop sMaxDemand.length)
  else if ciPref sMaximumDemand s then numGroupOpt (s.drop sMaximumDemand.length)
  else if ciPref sNetMaxDemand s then numGroupOpt (s.drop sNetMaxDemand.length)
  else none

def mdFind : List Char → Option (List Char)
  | [] => none
  | c :: rest =>
    match tryMdAt (c :: rest) with
    | some g => some g
    | none => mdFind rest

/-! ### The bidirectional neighbourhood: `indices_to_check` and the stable
sort by distance (`sorted` with `key=distance_score` in the source;
Python's sort is stable, modelled by a stable insertion sort). -/

def distance_score (idx j : Nat) : Nat := if j ≤ idx then idx - j else j - idx

def insertStable (key : Nat → Nat) (x : Nat) : List Nat → List Nat
  | [] => [x]
  | y :: ys => if key y < key x then y :: insertStable key x ys else x :: y :: ys

def sortStable (key : Nat → Nat) : List Nat → List Nat
  | [] => []
  | x :: xs => insertStable key x (sortStable key xs)

def indicesAbove (idx maxOffset : Nat) : List Nat :=
  (List.range maxOffset).filterMap
    (fun u => if u + 1 ≤ idx then some (idx - (u + 1)) else none)

def indicesBelow (lineCount idx maxOffset : Nat) : List Nat :=
  (List.range maxOffset).filterMap
    (fun d => if idx + (d + 1) < lineCount then some (idx + (d + 1)) else none)

def indices_to_check (lineCount idx maxOffset : Nat) : List Nat :=
  indicesAbove idx maxOffset ++ idx :: indicesBelow lineCount idx maxOffset

/-- Walk candidate indices in order; return the first non-empty hit. -/
def firstHit (g : Nat → List Char) : List Nat → List Char
  | [] => []
  | i :: rest =>
    let v := g i
    if v ≠ [] then v else firstHit g rest

def search_numeric_around (lines : List (List Char)) (idx maxOffset : Nat) : List Char :=
  firstHit (fun i => extract_first_numeric (lines.getD i []))
    (sortStable (distance_score idx) (indices_to_check lines.length idx maxOffset))

def search_month_around (lines : List (List Char)) (idx maxOffset : Nat) : List Char :=
  firstHit (fun i => (monthFind (lines.getD i [])).getD [])
    (sortStable (distance_score idx) (indices_to_check lines.length idx maxOffset))

def search_units_consumed_around (lines : List (List Char)) (idx maxOffset : Nat) : List Char :=
  firstHit (fun i => (digits36Find (stripCommas (lines.getD i []))).getD [])
    (sortStable (distance_score idx) (indices_to_check lines.length idx maxOffset))

/-! ### `parse_bidirectional` -/

structure PartialResult where
  month : Option (List Char)
  unitsConsumed : Option (List Char)
  loadSanctioned : Option (List Char)
  contractDemand : Option (List Char)
  maximumDemand : Option (List Char)
deriving DecidableEq

inductive BillField
  | month | unitsConsumed | loadSanctioned | contractDemand | maximumDemand
deriving DecidableEq

def PartialResult.get (r : PartialResult) : BillField → Option (List Char)
  | .month => r.month
  | .unitsConsumed => r.unitsConsumed
  | .loadSanctioned => r.loadSanctioned
  | .contractDemand => r.contractDemand
  | .maximumDemand => r.maximumDemand

def emptyPartial : PartialResult := ⟨none, none, none, none, none⟩

def labelMonthB (line : List Char) : Bool := containsSub sMonth (lowerL line)

def labelUnitsB (line : List Char) : Bool := containsSub sUnitsConsumed (lowerL line)

def labelLoadB (line : List Char) : Bool := containsSub sLoadSanctioned (lowerL line)

def labelContractB (line : List Char) : Bool :=
  containsSub sContractDemand (lowerL line) || containsSub sContDemand (lowerL line)

def labelMaxB (line : List Char) : Bool :=
  containsSub sMaximumDemand (lowerL line) || containsSub sMaxDemand (lowerL line) ||
    containsSub sMaximumDemand2 (lowerL line) || containsSub sNetMaxDemand (lowerL line)

def stepMonth (lines : List (List Char)) (i : Nat) (line : List Char)
    (r : PartialResult) : PartialResult :=
  if labelMonthB line && r.month.isNone then
    let found := search_month_around lines i 3
    if found ≠ [] then { r with month := some found } else r
  else r

def stepUnits (lines : List (List Char)) (i : Nat) (line : List Char)
    (r : PartialResult) : PartialResult :=
  if labelUnitsB line && r.unitsConsumed.isNone then
    let found := search_units_consumed_around lines i 3
    if found ≠ [] then { r with unitsConsumed := some found } else r
  else r

def stepLoad (lines : List (List Char)) (i : Nat) (line : List Char)
    (r : PartialResult) : PartialResult :=
  if labelLoadB line && r.loadSanctioned.isNone then
    let found := search_numeric_around lines i 3
    if found ≠ [] then { r with loadSanctioned := some found } else r
  else r

def stepContract (lines : List (List Char)) (i : Nat) (line : List Char)
    (r : PartialResult) : PartialResult :=
  if labelContractB line && r.contractDemand.isNone then
    let found := search_numeric_around lines i 3
    if found ≠ [] then { r with contractDemand := some found } else r
  else r

def stepMax (lines : List (List Char)) (i : Nat) (line : List Char)
    (r : PartialResult) : PartialResult :=
  if labelMaxB line && r.maximumDemand.isNone then
    let found := search_numeric_around lines i 3
    if found ≠ [] then { r with maximumDemand := some found } else r
  else r

def stepLine (lines : List (List Char)) (i : Nat) (line : List Char)
    (r : PartialResult) : PartialResult :=
  stepMax lines i line
    (stepContract lines i line
      (stepLoad lines i line
        (stepUnits lines i line
          (stepMonth lines i line r))))

def parseAux (lines : List (List Char)) : Nat → List (List Char) → PartialResult → PartialResult
  | _, [], r => r
  | i, line :: rest, r => parseAux lines (i + 1) rest (stepLine lines i line r)

def parse_bidirectional (lines : List (List Char)) : PartialResult :=
  parseAux lines 0 lines emptyPartial

/-! ### `fallback_search_whole_text` -/

def fallback_search_whole_text (pdf_text : List Char) : PartialResult :=
  let cleaned := stripCommas pdf_text
  let month := monthFind cleaned
  let units0 := unitsBeforeFind cleaned
  let units :=
    match units0 with
    | some g => some g
    | none => unitsAfterFind cleaned
  let all_kw := findAllKw cleaned
  let load := all_kw.head?
  let contract :=
    match cdFind cleaned with
    | some v => some v
    | none => all_kw[1]?
  let maxd := mdFind cleaned
  ⟨month, units, load, contract, maxd⟩

/-! ### `extract_all_fields` -/

structure ExtractionResult where
  month : String
  unitsConsumed : String
  loadSanctioned : String
  contractDemand : String
  maximumDemand : String
deriving DecidableEq

def ExtractionResult.get (r : ExtractionResult) : BillField → String
  | .month => r.month
  | .unitsConsumed => r.unitsConsumed
  | .loadSanctioned => r.loadSanctioned
  | .contractDemand => r.contractDemand
  | .maximumDemand => r.maximumDemand

/-- Python truthiness of an optional string: `None` and `""` are falsy. -/
def pyTruthy : Option (List Char) → Bool
  | none => false
  | some v => !v.isEmpty

/-- The per-field merge of `extract_all_fields`:
`chosen = val_line if val_line else val_fb`, the `"Not Found"` default,
then `chosen.replace(".00000", "")`. -/
def mergeField (a b : Option (List Char)) : List Char :=
  let chosen := if pyTruthy a then a else b
  let c2 := if pyTruthy chosen then chosen.getD [] else notFoundL
  replace00000 c2

def extract_all_fields (pdf_text : String) : ExtractionResult :=
  let lines := toLines pdf_text.data
  let line_based := parse_bidirectional lines
  let fb := fallback_search_whole_text pdf_text.data
  { month := ⟨mergeField line_based.month fb.month⟩
    unitsConsumed := ⟨mergeField line_based.unitsConsumed fb.unitsConsumed⟩
    loadSanctioned := ⟨mergeField line_based.loadSanctioned fb.loadSanctioned⟩
    contractDemand := ⟨mergeField line_based.contractDemand fb.contractDemand⟩
    maximumDemand := ⟨mergeField line_based.maximumDemand fb.maximumDemand⟩ }

/-! ### Specification-side definitions, written from the spec's words, for
the refinement claims -/

/-- The candidate order claimed by the spec for the bounded neighbourhood:
anchor first, then the pairs at distance 1, 2, 3, above before below,
clipped to the line range. -/
def claimedOrder (lineCount idx : Nat) : List Nat :=
  idx ::
    ((if 1 ≤ idx then [idx - 1] else []) ++
      (if idx + 1 < lineCount then [idx + 1] else []) ++
      (if 2 ≤ idx then [idx - 2] else []) ++
      (if idx + 2 < lineCount then [idx + 2] else []) ++
      (if 3 ≤ idx then [idx - 3] else []) ++
      (if idx + 3 < lineCount then [idx + 3] else []))

/-- The earliest-anchor-wins value claimed by the spec: scanning left to
right, the value around the first label line whose neighbourhood search
yields a non-empty value. -/
def firstAnchorAux (lines : List (List Char)) (labelB : List Char → Bool)
    (hit : List (List Char) → Nat → List Char) :
    Nat → List (List Char) → Option (List Char)
  | _, [] => none
  | i, line :: rest =>
    if labelB line ∧ hit lines i ≠ [] then some (hit lines i)
    else firstAnchorAux lines labelB hit (i + 1) rest

def anchorSpec (lines : List (List Char)) : BillField → Option (List Char)
  | .month =>
    firstAnchorAux lines labelMonthB (fun ls i => search_month_around ls i 3) 0 lines
  | .unitsConsumed =>
    firstAnchorAux lines labelUnitsB (fun ls i => search_units_consumed_around ls i 3) 0 lines
  | .loadSanctioned =>
    firstAnchorAux lines labelLoadB (fun ls i => search_numeric_around ls i 3) 0 lines
  | .contractDemand =>
    firstAnchorAux lines labelContractB (fun ls i => search_numeric_around ls i 3) 0 lines
  | .maximumDemand =>
    firstAnchorAux lines labelMaxB (fun ls i => search_numeric_around ls i 3) 0 lines

/-- The resolver claimed by the spec: prefer the anchored value, else the
fallback value, else the sentinel; normalisation applied to resolved
values. -/
def resolveSpec (a b : Option (List Char)) : String :=
  match a with
  | some v => ⟨replace00000 v⟩
  | none =>
    match b with
    | some w => ⟨replace00000 w⟩
    | none => "Not Found"

/-- Shape `letters{3,}-digits{4}` exactly. -/
def monthShapeB (l : List Char) : Bool :=
  let letters := l.takeWhile isAlphaChar
  match l.drop letters.length with
  | '-' :: ds => decide (3 ≤ letters.length) && ds.length == 4 && ds.all isDigitChar
  | _ => false

/-- Shape: a string of 3 to 6 decimal digits. -/
def digits36B (l : List Char) : Bool :=
  l.all isDigitChar && decide (3 ≤ l.length) && decide (l.length ≤ 6)

/-- No comma, no whitespace, no decimal point. -/
def cleanCharB (c : Char) : Bool := !(c == ',') && !isSpaceChar c && !(c == '.')

/-- No comma and no whitespace. -/
def noCommaWsB (c : Char) : Bool := !(c == ',') && !isSpaceChar c

/-- Characters a month value may contain. -/
def monthCharB (c : Char) : Bool := isAlphaChar c || c == '-' || isDigitChar c

/-- Characters a numeric value may contain. -/
def numCharB (c : Char) : Bool := isDigitChar c || c == '.'

/-- `pat` occurs as a contiguous substring of `s`. -/
def occursIn (pat s : List Char) : Prop := ∃ u v, s = u ++ pat ++ v

end BillExtractor

namespace BillExtractor

/-! ## Lemmas: the neighbourhood candidate order (claim C3) -/

lemma distance_score_self (i : Nat) : distance_score i i = 0 := by
  simp [distance_score]

lemma distance_score_add (i k : Nat) : distance_score i (i + k) = k := by
  unfold distance_score; split <;> omega

lemma distance_score_3_2 (i : Nat) : distance_score (i + 3) (i + 2) = 1 := by
  unfold distance_score; split <;> omega

lemma distance_score_3_1 (i : Nat) : distance_score (i + 3) (i + 1) = 2 := by
  unfold distance_score; split <;> omega

lemma distance_score_3_0 (i : Nat) : distance_score (i + 3) i = 3 := by
  unfold distance_score; split <;> omega

lemma sortStable_a3_b0 (key : Nat → Nat) (a1 a2 a3 x : Nat)
    (h1 : key a1 = 1) (h2 : key a2 = 2) (h3 : key a3 = 3) (hx : key x = 0) :
    sortStable key [a1, a2, a3, x] = [x, a1, a2, a3] := by
  simp [sortStable, insertStable, h1, h2, h3, hx]

lemma sortStable_a3_b1 (key : Nat → Nat) (a1 a2 a3 x b1 : Nat)
    (h1 : key a1 = 1) (h2 : key a2 = 2) (h3 : key a3 = 3) (hx : key x = 0)
    (g1 : key b1 = 1) :
    sortStable key [a1, a2, a3, x, b1] = [x, a1, b1, a2, a3] := by
  simp [sortStable, insertStable, h1, h2, h3, hx, g1]

lemma sortStable_a3_b2 (key : Nat → Nat) (a1 a2 a3 x b1 b2 : Nat)
    (h1 : key a1 = 1) (h2 : key a2 = 2) (h3 : key a3 = 3) (hx : key x = 0)
    (g1 : key b1 = 1) (g2 : key b2 = 2) :
    sortStable key [a1, a2, a3, x, b1, b2] = [x, a1, b1, a2, b2, a3] := by
  simp [sortStable, insertStable, h1, h2, h3, hx, g1, g2]

lemma sortStable_a3_b3 (key : Nat → Nat) (a1 a2 a3 x b1 b2 b3 : Nat)
    (h1 : key a1 = 1) (h2 : key a2 = 2) (h3 : key a3 = 3) (hx : key x = 0)
    (g1 : key b1 = 1) (g2 : key b2 = 2) (g3 : key b3 = 3) :
    sortStable key [a1, a2, a3, x, b1, b2, b3] = [x, a1, b1, a2, b2, a3, b3] := by
  simp [sortStable, insertStable, h1, h2, h3, hx, g1, g2, g3]

lemma indicesAbove_big (i : Nat) : indicesAbove (i + 3) 3 = [i + 2, i + 1, i] := by
  have h0 : 0 + 1 ≤ i + 3 := by omega
  have h1 : 1 + 1 ≤ i + 3 := by omega
  have h2 : 2 + 1 ≤ i + 3 := by omega
  simp only [indicesAbove, show List.range 3 = [0, 1, 2] from rfl, List.filterMap_cons,
    List.filterMap_nil, if_pos h0, if_pos h1, if_pos h2]
  simp only [List.cons.injEq, and_true]
  omega

lemma indicesBelow_zero (n idx : Nat) (h : ¬ idx + 1 < n) : indicesBelow n idx 3 = [] := by
  have h0 : ¬ idx + (0 + 1) < n := by omega
  have h1 : ¬ idx + (1 + 1) < n := by omega
  have h2 : ¬ idx + (2 + 1) < n := by omega
  simp only [indicesBelow, show List.range 3 = [0, 1, 2] from rfl, List.filterMap_cons,
    List.filterMap_nil, if_neg h0, if_neg h1, if_neg h2]

lemma indicesBelow_one (n idx : Nat) (h1 : idx + 1 < n) (h2 : ¬ idx + 2 < n) :
    indicesBelow n idx 3 = [idx + 1] := by
  have g0 : idx + (0 + 1) < n := by omega
  have g1 : ¬ idx + (1 + 1) < n := by omega
  have g2 : ¬ idx + (2 + 1) < n := by omega
  simp only [indicesBelow, show List.range 3 = [0, 1, 2] from rfl, List.filterMap_cons,
    List.filterMap_nil, if_pos g0, if_neg g1, if_neg g2]

lemma indicesBelow_two (n idx : Nat) (h2 : idx + 2 < n) (h3 : ¬ idx + 3 < n) :
    indicesBelow n idx 3 = [idx + 1, idx + 2] := by
  have g0 : idx + (0 + 1) < n := by omega
  have g1 : idx + (1 + 1) < n := by omega
  have g2 : ¬ idx + (2 + 1) < n := by omega
  simp only [indicesBelow, show List.range 3 = [0, 1, 2] from rfl, List.filterMap_cons,
    List.filterMap_nil, if_pos g0, if_pos g1, if_neg g2]

lemma indicesBelow_three (n idx : Nat) (h3 : idx + 3 < n) :
    indicesBelow n idx 3 = [idx + 1, idx + 2, idx + 3] := by
  have g0 : idx + (0 + 1) < n := by omega
  have g1 : idx + (1 + 1) < n := by omega
  have g2 : idx + (2 + 1) < n := by omega
  simp only [indicesBelow, show List.range 3 = [0, 1, 2] from rfl, List.filterMap_cons,
    List.filterMap_nil, if_pos g0, if_pos g1, if_pos g2]

lemma sorted_indices_eq (n idx : Nat) :
    sortStable (distance_score idx) (indices_to_check n idx 3) = claimedOrder n idx := by
  rcases Nat.lt_or_ge idx 3 with hsmall | hbig
  · interval_cases idx
    all_goals
      rcases (show n ≤ 1 + 1 + 1 ∨ n = 2 + 1 + 1 ∨ n = 2 + 1 + 2 ∨ 2 + 3 < n ∧ 5 < n + 3 by omega)
        with hb | hb | hb | hb
    all_goals try (interval_cases n <;> decide)
    all_goals try (subst hb; decide)
    -- the remaining goals have idx concrete and idx + 3 < n
    · have f3 : 0 + 3 < n := by omega
      have f1 : 0 + 1 < n := by omega
      have f2 : 0 + 2 < n := by omega
      simp only [indices_to_check, indicesBelow_three n 0 f3, claimedOrder,
        if_pos f1, if_pos f2, if_pos f3]
      norm_num [sortStable, insertStable, distance_score, indicesAbove]
    · have f3 : 1 + 3 < n := by omega
      have f1 : 1 + 1 < n := by omega
      have f2 : 1 + 2 < n := by omega
      simp only [indices_to_check, indicesBelow_three n 1 f3, claimedOrder,
        if_pos f1, if_pos f2, if_pos f3]
      norm_num [sortStable, insertStable, distance_score, indicesAbove]
    · have f3 : 2 + 3 < n := by omega
      have f1 : 2 + 1 < n := by omega
      have f2 : 2 + 2 < n := by omega
      simp only [indices_to_check, indicesBelow_three n 2 f3, claimedOrder,
        if_pos f1, if_pos f2, if_pos f3]
      norm_num [sortStable, insertStable, distance_score, indicesAbove]
  · obtain ⟨i, rfl⟩ : ∃ i, idx = i + 3 := ⟨idx - 3, by omega⟩
    have c1 : 1 ≤ i + 3 := by omega
    have c2 : 2 ≤ i + 3 := by omega
    have c3 : 3 ≤ i + 3 := by omega
    rcases (show ¬ i + 3 + 1 < n ∨ (i + 3 + 1 < n ∧ ¬ i + 3 + 2 < n) ∨
        (i + 3 + 2 < n ∧ ¬ i + 3 + 3 < n) ∨ i + 3 + 3 < n by omega) with hb | ⟨hb1, hb2⟩ | ⟨hb1, hb2⟩ | hb
    · have hb1 : ¬ i + 3 + 2 < n := by omega
      have hb2 : ¬ i + 3 + 3 < n := by omega
      simp only [indices_to_check, indicesAbove_big, indicesBelow_zero n (i + 3) hb,
        List.cons_append, List.nil_append, List.append_nil]
      rw [sortStable_a3_b0 (distance_score (i + 3)) _ _ _ _
        (distance_score_3_2 i) (distance_score_3_1 i) (distance_score_3_0 i)
        (distance_score_self (i + 3))]
      simp only [claimedOrder, if_pos c1, if_pos c2, if_pos c3, if_neg hb, if_neg hb1, if_neg hb2]
      simp only [List.cons_append, List.nil_append, List.append_nil, List.cons.injEq,
        and_true, true_and]
      omega
    · have hb3 : ¬ i + 3 + 3 < n := by omega
      simp only [indices_to_check, indicesAbove_big, indicesBelow_one n (i + 3) hb1 hb2,
        List.cons_append, List.nil_append, List.append_nil]
      rw [sortStable_a3_b1 (distance_score (i + 3)) _ _ _ _ _
        (distance_score_3_2 i) (distance_score_3_1 i) (distance_score_3_0 i)
        (distance_score_self (i + 3)) (distance_score_add (i + 3) 1)]
      simp only [claimedOrder, if_pos c1, if_pos c2, if_pos c3, if_pos hb1, if_neg hb2, if_neg hb3]
      simp only [List.cons_append, List.nil_append, List.append_nil, List.cons.injEq,
        and_true, true_and]
      omega
    · have hb0 : i + 3 + 1 < n := by omega
      simp only [indices_to_check, indicesAbove_big, indicesBelow_two n (i + 3) hb1 hb2,
        List.cons_append, List.nil_append, List.append_nil]
      rw [sortStable_a3_b2 (distance_score (i + 3)) _ _ _ _ _ _
        (distance_score_3_2 i) (distance_score_3_1 i) (distance_score_3_0 i)
        (distance_score_self (i + 3)) (distance_score_add (i + 3) 1) (distance_score_add (i + 3) 2)]
      simp only [claimedOrder, if_pos c1, if_pos c2, if_pos c3, if_pos hb0, if_pos hb1, if_neg hb2]
      simp only [List.cons_append, List.nil_append, List.append_nil, List.cons.injEq,
        and_true, true_and]
      omega
    · have hb0 : i + 3 + 1 < n := by omega
      have hb1 : i + 3 + 2 < n := by omega
      simp only [indices_to_check, indicesAbove_big, indicesBelow_three n (i + 3) hb,
        List.cons_append, List.nil_append, List.append_nil]
      rw [sortStable_a3_b3 (distance_score (i + 3)) _ _ _ _ _ _ _
        (distance_score_3_2 i) (distance_score_3_1 i) (distance_score_3_0 i)
        (distance_score_self (i + 3)) (distance_score_add (i + 3) 1) (distance_score_add (i + 3) 2)
        (distance_score_add (i + 3) 3)]
      simp only [claimedOrder, if_pos c1, if_pos c2, if_pos c3, if_pos hb0, if_pos hb1, if_pos hb]
      simp only [List.cons_append, List.nil_append, List.append_nil, List.cons.injEq,
        and_true, true_and]
      omega

lemma claimedOrder_dist (n idx : Nat) :
    ∀ j ∈ claimedOrder n idx, distance_score idx j ≤ 3 := by
  intro j hj
  simp only [claimedOrder, List.mem_cons, List.mem_append] at hj
  rcases hj with rfl | hj
  · simp [distance_score]
  · have hone : ∀ (c : Prop) [Decidable c] (x : Nat),
        j ∈ (if c then [x] else []) → j = x := by
      intro c _ x hx
      by_cases hc : c <;> simp [hc] at hx; exact hx
    rcases hj with ((((h | h) | h) | h) | h) | h
    all_goals
      have hx := hone _ _ h
      subst hx
      unfold distance_score
      split <;> omega

end BillExtractor

namespace BillExtractor

/-! ## Lemmas: the left-to-right scan of `parse_bidirectional` (claims C4, C5, C9) -/

lemma stepUnits_month (lines : List (List Char)) (i : Nat) (line : List Char)
    (r : PartialResult) : (stepUnits lines i line r).month = r.month := by
  simp only [stepUnits]; split_ifs <;> rfl

lemma stepLoad_month (lines : List (List Char)) (i : Nat) (line : List Char)
    (r : PartialResult) : (stepLoad lines i line r).month = r.month := by
  simp only [stepLoad]; split_ifs <;> rfl

lemma stepContract_month (lines : List (List Char)) (i : Nat) (line : List Char)
    (r : PartialResult) : (stepContract lines i line r).month = r.month := by
  simp only [stepContract]; split_ifs <;> rfl

lemma stepMax_month (lines : List (List Char)) (i : Nat) (line : List Char)
    (r : PartialResult) : (stepMax lines i line r).month = r.month := by
  simp only [stepMax]; split_ifs <;> rfl

lemma stepMonth_units (lines : List (List Char)) (i : Nat) (line : List Char)
    (r : PartialResult) : (stepMonth lines i line r).unitsConsumed = r.unitsConsumed := by
  simp only [stepMonth]; split_ifs <;> rfl

lemma stepLoad_units (lines : List (List Char)) (i : Nat) (line : List Char)
    (r : PartialResult) : (stepLoad lines i line r).unitsConsumed = r.unitsConsumed := by
  simp only [stepLoad]; split_ifs <;> rfl

lemma stepContract_units (lines : List (List Char)) (i : Nat) (line : List Char)
    (r : PartialResult) : (stepContract lines i line r).unitsConsumed = r.unitsConsumed := by
  simp only [stepContract]; split_ifs <;> rfl

lemma stepMax_units (lines : List (List Char)) (i : Nat) (line : List Char)
    (r : PartialResult) : (stepMax lines i line r).unitsConsumed = r.unitsConsumed := by
  simp only [stepMax]; split_ifs <;> rfl

lemma stepMonth_load (lines : List (List Char)) (i : Nat) (line : List Char)
    (r : PartialResult) : (stepMonth lines i line r).loadSanctioned = r.loadSanctioned := by
  simp only [stepMonth]; split_ifs <;> rfl

lemma stepUnits_load (lines : List (List Char)) (i : Nat) (line : List Char)
    (r : PartialResult) : (stepUnits lines i line r).loadSanctioned = r.loadSanctioned := by
  simp only [stepUnits]; split_ifs <;> rfl

lemma stepContract_load (lines : List (List Char)) (i : Nat) (line : List Char)
    (r : PartialResult) : (stepContract lines i line r).loadSanctioned = r.loadSanctioned := by
  simp only [stepContract]; split_ifs <;> rfl

lemma stepMax_load (lines : List (List Char)) (i : Nat) (line : List Char)
    (r : PartialResult) : (stepMax lines i line r).loadSanctioned = r.loadSanctioned := by
  simp only [stepMax]; split_ifs <;> rfl

lemma stepMonth_contract (lines : List (List Char)) (i : Nat) (line : List Char)
    (r : PartialResult) : (stepMonth lines i line r).contractDemand = r.contractDemand := by
  simp only [stepMonth]; split_ifs <;> rfl

lemma stepUnits_contract (lines : List (List Char)) (i : Nat) (line : List Char)
    (r : PartialResult) : (stepUnits lines i line r).contractDemand = r.contractDemand := by
  simp only [stepUnits]; split_ifs <;> rfl

lemma stepLoad_contract (lines : List (List Char)) (i : Nat) (line : List Char)
    (r : PartialResult) : (stepLoad lines i line r).contractDemand = r.contractDemand := by
  simp only [stepLoad]; split_ifs <;> rfl

lemma stepMax_contract (lines : List (List Char)) (i : Nat) (line : List Char)
    (r : PartialResult) : (stepMax lines i line r).contractDemand = r.contractDemand := by
  simp only [stepMax]; split_ifs <;> rfl

lemma stepMonth_max (lines : List (List Char)) (i : Nat) (line : List Char)
    (r : PartialResult) : (stepMonth lines i line r).maximumDemand = r.maximumDemand := by
  simp only [stepMonth]; split_ifs <;> rfl

lemma stepUnits_max (lines : List (List Char)) (i : Nat) (line : List Char)
    (r : PartialResult) : (stepUnits lines i line r).maximumDemand = r.maximumDemand := by
  simp only [stepUnits]; split_ifs <;> rfl

lemma stepLoad_max (lines : List (List Char)) (i : Nat) (line : List Char)
    (r : PartialResult) : (stepLoad lines i line r).maximumDemand = r.maximumDemand := by
  simp only [stepLoad]; split_ifs <;> rfl

lemma stepContract_max (lines : List (List Char)) (i : Nat) (line : List Char)
    (r : PartialResult) : (stepContract lines i line r).maximumDemand = r.maximumDemand := by
  simp only [stepContract]; split_ifs <;> rfl

lemma stepMonth_month (lines : List (List Char)) (i : Nat) (line : List Char)
    (r : PartialResult) :
    (stepMonth lines i line r).month =
      if labelMonthB line ∧ r.month = none ∧ search_month_around lines i 3 ≠ [] then
        some (search_month_around lines i 3)
      else r.month := by
  simp only [stepMonth]
  cases hl : labelMonthB line <;> cases hm : r.month <;>
    by_cases hf : search_month_around lines i 3 = [] <;>
    simp [hl, hm, hf]

lemma stepUnits_units (lines : List (List Char)) (i : Nat) (line : List Char)
    (r : PartialResult) :
    (stepUnits lines i line r).unitsConsumed =
      if labelUnitsB line ∧ r.unitsConsumed = none ∧
          search_units_consumed_around lines i 3 ≠ [] then
        some (search_units_consumed_around lines i 3)
      else r.unitsConsumed := by
  simp only [stepUnits]
  cases hl : labelUnitsB line <;> cases hm : r.unitsConsumed <;>
    by_cases hf : search_units_consumed_around lines i 3 = [] <;>
    simp [hl, hm, hf]

lemma stepLoad_load (lines : List (List Char)) (i : Nat) (line : List Char)
    (r : PartialResult) :
    (stepLoad lines i line r).loadSanctioned =
      if labelLoadB line ∧ r.loadSanctioned = none ∧ search_numeric_around lines i 3 ≠ [] then
        some (search_numeric_around lines i 3)
      else r.loadSanctioned := by
  simp only [stepLoad]
  cases hl : labelLoadB line <;> cases hm : r.loadSanctioned <;>
    by_cases hf : search_numeric_around lines i 3 = [] <;>
    simp [hl, hm, hf]

lemma stepContract_contract (lines : List (List Char)) (i : Nat) (line : List Char)
    (r : PartialResult) :
    (stepContract lines i line r).contractDemand =
      if labelContractB line ∧ r.contractDemand = none ∧
          search_numeric_around lines i 3 ≠ [] then
        some (search_numeric_around lines i 3)
      else r.contractDemand := by
  simp only [stepContract]
  cases hl : labelContractB line <;> cases hm : r.contractDemand <;>
    by_cases hf : search_numeric_around lines i 3 = [] <;>
    simp [hl, hm, hf]

lemma stepMax_max (lines : List (List Char)) (i : Nat) (line : List Char)
    (r : PartialResult) :
    (stepMax lines i line r).maximumDemand =
      if labelMaxB line ∧ r.maximumDemand = none ∧ search_numeric_around lines i 3 ≠ [] then
        some (search_numeric_around lines i 3)
      else r.maximumDemand := by
  simp only [stepMax]
  cases hl : labelMaxB line <;> cases hm : r.maximumDemand <;>
    by_cases hf : search_numeric_around lines i 3 = [] <;>
    simp [hl, hm, hf]

lemma stepLine_month (lines : List (List Char)) (i : Nat) (line : List Char)
    (r : PartialResult) :
    (stepLine lines i line r).month =
      if labelMonthB line ∧ r.month = none ∧ search_month_around lines i 3 ≠ [] then
        some (search_month_around lines i 3)
      else r.month := by
  unfold stepLine
  rw [stepMax_month, stepContract_month, stepLoad_month, stepUnits_month, stepMonth_month]

lemma stepLine_units (lines : List (List Char)) (i : Nat) (line : List Char)
    (r : PartialResult) :
    (stepLine lines i line r).unitsConsumed =
      if labelUnitsB line ∧ r.unitsConsumed = none ∧
          search_units_consumed_around lines i 3 ≠ [] then
        some (search_units_consumed_around lines i 3)
      else r.unitsConsumed := by
  unfold stepLine
  rw [stepMax_units, stepContract_units, stepLoad_units, stepUnits_units, stepMonth_units]

lemma stepLine_load (lines : List (List Char)) (i : Nat) (line : List Char)
    (r : PartialResult) :
    (stepLine lines i line r).loadSanctioned =
      if labelLoadB line ∧ r.loadSanctioned = none ∧ search_numeric_around lines i 3 ≠ [] then
        some (search_numeric_around lines i 3)
      else r.loadSanctioned := by
  unfold stepLine
  rw [stepMax_load, stepContract_load, stepLoad_load, stepUnits_load, stepMonth_load]

lemma stepLine_contract (lines : List (List Char)) (i : Nat) (line : List Char)
    (r : PartialResult) :
    (stepLine lines i line r).contractDemand =
      if labelContractB line ∧ r.contractDemand = none ∧
          search_numeric_around lines i 3 ≠ [] then
        some (search_numeric_around lines i 3)
      else r.contractDemand := by
  unfold stepLine
  rw [stepMax_contract, stepContract_contract, stepLoad_contract, stepUnits_contract,
    stepMonth_contract]

lemma stepLine_max (lines : List (List Char)) (i : Nat) (line : List Char)
    (r : PartialResult) :
    (stepLine lines i line r).maximumDemand =
      if labelMaxB line ∧ r.maximumDemand = none ∧ search_numeric_around lines i 3 ≠ [] then
        some (search_numeric_around lines i 3)
      else r.maximumDemand := by
  unfold stepLine
  rw [stepMax_max, stepContract_max, stepLoad_max, stepUnits_max, stepMonth_max]

lemma parseAux_get (g : PartialResult → Option (List Char)) (labelB : List Char → Bool)
    (hit : List (List Char) → Nat → List Char)
    (hstep : ∀ lines i line r, g (stepLine lines i line r) =
      if labelB line ∧ g r = none ∧ hit lines i ≠ [] then some (hit lines i) else g r)
    (lines : List (List Char)) :
    ∀ (cur : List (List Char)) (i : Nat) (r : PartialResult),
      g (parseAux lines i cur r) =
        match g r with
        | some v => some v
        | none => firstAnchorAux lines labelB hit i cur := by
  intro cur
  induction cur with
  | nil => intro i r; cases hg : g r <;> simp [parseAux, firstAnchorAux, hg]
  | cons line rest ih =>
    intro i r
    show g (parseAux lines (i + 1) rest (stepLine lines i line r)) = _
    rw [ih, hstep]
    by_cases hc : labelB line ∧ g r = none ∧ hit lines i ≠ []
    · rcases hc with ⟨h1, h2, h3⟩
      rw [if_pos ⟨h1, h2, h3⟩, h2]
      show some (hit lines i) = firstAnchorAux lines labelB hit i (line :: rest)
      rw [firstAnchorAux, if_pos ⟨h1, h3⟩]
    · rw [if_neg hc]
      cases hg : g r with
      | some v => rfl
      | none =>
        show firstAnchorAux lines labelB hit (i + 1) rest =
          firstAnchorAux lines labelB hit i (line :: rest)
        have hcc : ¬ (labelB line ∧ hit lines i ≠ []) := by
          intro h
          exact hc ⟨h.1, hg, h.2⟩
        rw [firstAnchorAux, if_neg hcc]

lemma parse_get_eq_anchorSpec (lines : List (List Char)) (f : BillField) :
    (parse_bidirectional lines).get f = anchorSpec lines f := by
  cases f
  case month =>
    show (parseAux lines 0 lines emptyPartial).month = _
    rw [parseAux_get (fun r => r.month) labelMonthB (fun ls j => search_month_around ls j 3)
      stepLine_month lines lines 0 emptyPartial]
    rfl
  case unitsConsumed =>
    show (parseAux lines 0 lines emptyPartial).unitsConsumed = _
    rw [parseAux_get (fun r => r.unitsConsumed) labelUnitsB
      (fun ls j => search_units_consumed_around ls j 3) stepLine_units lines lines 0 emptyPartial]
    rfl
  case loadSanctioned =>
    show (parseAux lines 0 lines emptyPartial).loadSanctioned = _
    rw [parseAux_get (fun r => r.loadSanctioned) labelLoadB
      (fun ls j => search_numeric_around ls j 3) stepLine_load lines lines 0 emptyPartial]
    rfl
  case contractDemand =>
    show (parseAux lines 0 lines emptyPartial).contractDemand = _
    rw [parseAux_get (fun r => r.contractDemand) labelContractB
      (fun ls j => search_numeric_around ls j 3) stepLine_contract lines lines 0 emptyPartial]
    rfl
  case maximumDemand =>
    show (parseAux lines 0 lines emptyPartial).maximumDemand = _
    rw [parseAux_get (fun r => r.maximumDemand) labelMaxB
      (fun ls j => search_numeric_around ls j 3) stepLine_max lines lines 0 emptyPartial]
    rfl

lemma firstAnchorAux_none (lines : List (List Char)) (labelB : List Char → Bool)
    (hit : List (List Char) → Nat → List Char) :
    ∀ (cur : List (List Char)) (i : Nat), (∀ l ∈ cur, labelB l = false) →
      firstAnchorAux lines labelB hit i cur = none := by
  intro cur
  induction cur with
  | nil => intro i _; rfl
  | cons line rest ih =>
    intro i h
    rw [firstAnchorAux, if_neg]
    · exact ih (i + 1) (fun l hl => h l (List.mem_cons_of_mem _ hl))
    · intro hc
      have := h line (List.mem_cons_self _ _)
      rw [this] at hc
      exact absurd hc.1 (by simp)

lemma firstAnchorAux_some (lines : List (List Char)) (labelB : List Char → Bool)
    (hit : List (List Char) → Nat → List Char) :
    ∀ (cur : List (List Char)) (i : Nat) (v : List Char),
      firstAnchorAux lines labelB hit i cur = some v → ∃ j, v = hit lines j ∧ v ≠ [] := by
  intro cur
  induction cur with
  | nil => intro i v h; exact absurd h (by simp [firstAnchorAux])
  | cons line rest ih =>
    intro i v h
    rw [firstAnchorAux] at h
    by_cases hc : labelB line ∧ hit lines i ≠ []
    · rw [if_pos hc] at h
      exact ⟨i, (Option.some_inj.mp h).symm, (Option.some_inj.mp h) ▸ hc.2⟩
    · rw [if_neg hc] at h
      exact ih (i + 1) v h

lemma firstHit_cases (g : Nat → List Char) :
    ∀ ord : List Nat, firstHit g ord = [] ∨ ∃ i ∈ ord, firstHit g ord = g i ∧ g i ≠ [] := by
  intro ord
  induction ord with
  | nil => left; rfl
  | cons j rest ih =>
    by_cases h : g j ≠ []
    · right
      refine ⟨j, List.mem_cons_self _ _, ?_, h⟩
      rw [firstHit, if_pos h]
    · have hrw : firstHit g (j :: rest) = firstHit g rest := by
        rw [firstHit, if_neg h]
      rcases ih with h1 | ⟨i, hi, h2⟩
      · left; rw [hrw, h1]
      · right; exact ⟨i, List.mem_cons_of_mem _ hi, by rw [hrw]; exact h2⟩

end BillExtractor


namespace BillExtractor

/-! ## Lemmas: shapes of scanner results -/

lemma tryMonthAt_shape (s g : List Char) (h : tryMonthAt s = some g) :
    ∃ L d4, g = L ++ '-' :: d4 ∧ (∀ c ∈ L, isAlphaChar c = true) ∧ 3 ≤ L.length ∧
      d4.length = 4 ∧ (∀ c ∈ d4, isDigitChar c = true) := by
  simp only [tryMonthAt] at h
  split at h
  · next h1 =>
    split at h
    · next r2 heq =>
      split at h
      · next h2 =>
        cases h
        simp only [Bool.and_eq_true, List.all_eq_true, decide_eq_true_eq] at h2
        exact ⟨s.takeWhile isAlphaChar, r2.take 4, rfl,
          fun c hc => List.mem_takeWhile_imp hc, h1, h2.1.1, h2.1.2⟩
      · cases h
    · cases h
  · cases h

lemma monthFindAux_origin :
    ∀ (prev : Option Char) (s g : List Char),
      monthFindAux prev s = some g → ∃ t, tryMonthAt t = some g := by
  intro prev s
  induction s generalizing prev with
  | nil => intro g h; cases h
  | cons c rest ih =>
    intro g h
    rw [monthFindAux] at h
    cases hmatch : (if prevNonWord prev && isAlphaChar c then tryMonthAt (c :: rest) else none) with
    | none =>
      rw [hmatch] at h
      exact ih (some c) g h
    | some g' =>
      rw [hmatch] at h
      cases h
      by_cases hb : (prevNonWord prev && isAlphaChar c) = true
      · rw [if_pos hb] at hmatch; exact ⟨c :: rest, hmatch⟩
      · rw [if_neg hb] at hmatch; cases hmatch

lemma monthFind_shape (s g : List Char) (h : monthFind s = some g) :
    ∃ L d4, g = L ++ '-' :: d4 ∧ (∀ c ∈ L, isAlphaChar c = true) ∧ 3 ≤ L.length ∧
      d4.length = 4 ∧ (∀ c ∈ d4, isDigitChar c = true) := by
  obtain ⟨t, ht⟩ := monthFindAux_origin none s g h
  exact tryMonthAt_shape t g ht

lemma monthShape_ne_nil (g L d4 : List Char) (hg : g = L ++ '-' :: d4) : g ≠ [] := by
  subst hg
  cases L <;> simp

lemma tryDigits36At_shape (s g : List Char) (h : tryDigits36At s = some g) :
    digits36B g = true := by
  simp only [tryDigits36At] at h
  split at h
  · next hcond =>
    cases h
    simp only [Bool.and_eq_true, decide_eq_true_eq] at hcond
    simp only [digits36B, Bool.and_eq_true, List.all_eq_true, decide_eq_true_eq]
    exact ⟨⟨fun c hc => List.mem_takeWhile_imp hc, hcond.1.1⟩, hcond.1.2⟩
  · cases h

lemma digits36Aux_origin :
    ∀ (prev : Option Char) (s g : List Char),
      digits36Aux prev s = some g → ∃ t, tryDigits36At t = some g := by
  intro prev s
  induction s generalizing prev with
  | nil => intro g h; cases h
  | cons c rest ih =>
    intro g h
    rw [digits36Aux] at h
    cases hmatch : (if prevNonWord prev && isDigitChar c then tryDigits36At (c :: rest) else none) with
    | none =>
      rw [hmatch] at h
      exact ih (some c) g h
    | some g' =>
      rw [hmatch] at h
      cases h
      by_cases hb : (prevNonWord prev && isDigitChar c) = true
      · rw [if_pos hb] at hmatch; exact ⟨c :: rest, hmatch⟩
      · rw [if_neg hb] at hmatch; cases hmatch

lemma digits36Find_shape (s g : List Char) (h : digits36Find s = some g) :
    digits36B g = true := by
  obtain ⟨t, ht⟩ := digits36Aux_origin none s g h
  exact tryDigits36At_shape t g ht

lemma digits36B_ne_nil (g : List Char) (h : digits36B g = true) : g ≠ [] := by
  simp only [digits36B, Bool.and_eq_true, decide_eq_true_eq] at h
  intro hg
  subst hg
  simp at h

lemma numTokenAt_chars (s : List Char) : ∀ c ∈ numTokenAt s, numCharB c = true := by
  intro c hc
  simp only [numTokenAt] at hc
  have hd : ∀ x ∈ s.takeWhile isDigitChar, numCharB x = true := fun x hx => by
    simp only [numCharB, Bool.or_eq_true]
    exact Or.inl (List.mem_takeWhile_imp hx)
  split at hc
  · next r2 heq =>
    split at hc
    · exact hd c hc
    · rcases List.mem_append.mp hc with h1 | h1
      · exact hd c h1
      · rcases List.mem_cons.mp h1 with rfl | h2
        · simp [numCharB]
        · simp only [numCharB, Bool.or_eq_true]
          exact Or.inl (List.mem_takeWhile_imp h2)
  · exact hd c hc

lemma firstNumericAux_chars (s : List Char) :
    ∀ c ∈ firstNumericAux s, numCharB c = true := by
  induction s with
  | nil => intro c hc; cases hc
  | cons a rest ih =>
    intro c hc
    rw [firstNumericAux] at hc
    split at hc
    · exact numTokenAt_chars _ c hc
    · exact ih c hc

lemma extract_first_numeric_chars (line : List Char) :
    ∀ c ∈ extract_first_numeric line, numCharB c = true :=
  firstNumericAux_chars (stripCommas line)

lemma numGroupOpt_shape (s g : List Char) (h : numGroupOpt s = some g) :
    g ≠ [] ∧ ∀ c ∈ g, numCharB c = true := by
  simp only [numGroupOpt] at h
  have hd : ∀ (l : List Char), ∀ x ∈ l.takeWhile isDigitChar, numCharB x = true :=
    fun l x hx => by
      simp only [numCharB, Bool.or_eq_true]
      exact Or.inl (List.mem_takeWhile_imp hx)
  split at h
  · cases h
  · next hne =>
    split at h
    · next r2 heq =>
      split at h
      · cases h
        exact ⟨hne, hd _⟩
      · cases h
        refine ⟨by simp, fun c hc => ?_⟩
        rcases List.mem_append.mp hc with h1 | h1
        · exact hd _ c h1
        · rcases List.mem_cons.mp h1 with rfl | h2
          · simp [numCharB]
          · simp only [numCharB, Bool.or_eq_true]
            exact Or.inl (List.mem_takeWhile_imp h2)
    · cases h
      exact ⟨hne, hd _⟩

lemma cdFind_origin : ∀ (s g : List Char), cdFind s = some g →
    ∃ t, numGroupOpt t = some g := by
  intro s
  induction s with
  | nil => intro g h; cases h
  | cons c rest ih =>
    intro g h
    rw [cdFind] at h
    cases hmatch : tryCdAt (c :: rest) with
    | none => rw [hmatch] at h; exact ih g h
    | some g' =>
      rw [hmatch] at h
      cases h
      unfold tryCdAt at hmatch
      split at hmatch
      · exact ⟨_, hmatch⟩
      · split at hmatch
        · exact ⟨_, hmatch⟩
        · cases hmatch

lemma mdFind_origin : ∀ (s g : List Char), mdFind s = some g →
    ∃ t, numGroupOpt t = some g := by
  intro s
  induction s with
  | nil => intro g h; cases h
  | cons c rest ih =>
    intro g h
    rw [mdFind] at h
    cases hmatch : tryMdAt (c :: rest) with
    | none => rw [hmatch] at h; exact ih g h
    | some g' =>
      rw [hmatch] at h
      cases h
      unfold tryMdAt at hmatch
      split at hmatch
      · exact ⟨_, hmatch⟩
      · split at hmatch
        · exact ⟨_, hmatch⟩
        · split at hmatch
          · exact ⟨_, hmatch⟩
          · cases hmatch

lemma tryUnitsBeforeAt_shape (s g : List Char) (h : tryUnitsBeforeAt s = some g) :
    digits36B g = true := by
  simp only [tryUnitsBeforeAt] at h
  split at h
  · next hcond =>
    simp only [Bool.and_eq_true, decide_eq_true_eq] at hcond
    split at h
    · split at h
      · cases h
        simp only [digits36B, Bool.and_eq_true, List.all_eq_true, decide_eq_true_eq]
        exact ⟨⟨fun c hc => List.mem_takeWhile_imp hc, hcond.1⟩, hcond.2⟩
      · cases h
    · cases h
  · cases h

lemma unitsBeforeFind_shape : ∀ (s g : List Char), unitsBeforeFind s = some g →
    digits36B g = true := by
  intro s
  induction s with
  | nil => intro g h; cases h
  | cons c rest ih =>
    intro g h
    rw [unitsBeforeFind] at h
    cases hmatch : (if isDigitChar c then tryUnitsBeforeAt (c :: rest) else none) with
    | none => rw [hmatch] at h; exact ih g h
    | some g' =>
      rw [hmatch] at h
      cases h
      by_cases hb : isDigitChar c = true
      · rw [if_pos hb] at hmatch; exact tryUnitsBeforeAt_shape _ _ hmatch
      · rw [if_neg hb] at hmatch; cases hmatch

lemma tryUnitsAfterAt_shape (s g : List Char) (h : tryUnitsAfterAt s = some g) :
    digits36B g = true := by
  simp only [tryUnitsAfterAt] at h
  split at h
  · cases h
  · next r heq =>
    split at h
    · next hlen =>
      cases h
      simp only [digits36B, Bool.and_eq_true, List.all_eq_true, decide_eq_true_eq]
      refine ⟨⟨fun c hc => List.mem_takeWhile_imp (List.mem_of_mem_take hc), ?_⟩, ?_⟩
      · rw [List.length_take]
        omega
      · rw [List.length_take]
        omega
    · cases h

lemma unitsAfterFind_shape : ∀ (s g : List Char), unitsAfterFind s = some g →
    digits36B g = true := by
  intro s
  induction s with
  | nil => intro g h; cases h
  | cons c rest ih =>
    intro g h
    rw [unitsAfterFind] at h
    cases hmatch : tryUnitsAfterAt (c :: rest) with
    | none => rw [hmatch] at h; exact ih g h
    | some g' =>
      rw [hmatch] at h
      cases h
      exact tryUnitsAfterAt_shape _ _ hmatch

lemma tryKwAt_shape (s g r : List Char) (h : tryKwAt s = some (g, r)) :
    g ≠ [] ∧ ∀ c ∈ g, numCharB c = true := by
  simp only [tryKwAt] at h
  have hd : ∀ (l : List Char), ∀ x ∈ l.takeWhile isDigitChar, numCharB x = true :=
    fun l x hx => by
      simp only [numCharB, Bool.or_eq_true]
      exact Or.inl (List.mem_takeWhile_imp hx)
  have hmem : ∀ (d f : List Char), (∀ x ∈ d, numCharB x = true) → (∀ x ∈ f, numCharB x = true) →
      (d ++ '.' :: f ≠ [] ∧ ∀ c ∈ d ++ '.' :: f, numCharB c = true) := by
    intro d f h1 h2
    refine ⟨by simp, fun c hc => ?_⟩
    rcases List.mem_append.mp hc with hx | hx
    · exact h1 c hx
    · rcases List.mem_cons.mp hx with rfl | hx2
      · simp [numCharB]
      · exact h2 c hx2
  split at h
  · cases h
  · split at h
    · next r2 heq =>
      split at h
      · cases h
      · split at h
        · simp only [Option.some.injEq, Prod.mk.injEq] at h
          obtain ⟨rfl, rfl⟩ := h
          exact hmem _ _ (hd _) (hd _)
        · split at h
          · simp only [Option.some.injEq, Prod.mk.injEq] at h
            obtain ⟨rfl, rfl⟩ := h
            exact hmem _ _ (hd _) (hd _)
          · cases h
    · cases h

lemma findAllKwAux_shape : ∀ (fuel : Nat) (s : List Char) (g : List Char),
    g ∈ findAllKwAux fuel s → g ≠ [] ∧ ∀ c ∈ g, numCharB c = true := by
  intro fuel
  induction fuel with
  | zero => intro s g h; cases s <;> cases h
  | succ fuel ih =>
    intro s g h
    cases s with
    | nil => cases h
    | cons c rest =>
      rw [findAllKwAux] at h
      split at h
      · cases hmatch : tryKwAt (c :: rest) with
        | none => rw [hmatch] at h; exact ih _ g h
        | some p =>
          rw [hmatch] at h
          rcases List.mem_cons.mp h with rfl | h2
          · exact tryKwAt_shape _ _ _ hmatch
          · exact ih _ g h2
      · exact ih _ g h

lemma findAllKw_shape (s g : List Char) (h : g ∈ findAllKw s) :
    g ≠ [] ∧ ∀ c ∈ g, numCharB c = true :=
  findAllKwAux_shape s.length s g h

end BillExtractor

namespace BillExtractor

/-! ## Lemmas: the merge of `extract_all_fields` and the resolver -/

lemma replace00000_notFound : replace00000 notFoundL = notFoundL := rfl

lemma mergeField_resolve (a b : Option (List Char)) (ha : a ≠ some []) (hb : b ≠ some []) :
    (⟨mergeField a b⟩ : String) = resolveSpec a b := by
  cases a with
  | some v =>
    have hv : v.isEmpty = false := by
      cases v with
      | nil => exact absurd rfl ha
      | cons x xs => rfl
    simp [mergeField, pyTruthy, resolveSpec, hv]
  | none =>
    cases b with
    | some w =>
      have hw : w.isEmpty = false := by
        cases w with
        | nil => exact absurd rfl hb
        | cons x xs => rfl
      simp [mergeField, pyTruthy, resolveSpec, hw]
    | none =>
      show (⟨mergeField none none⟩ : String) = "Not Found"
      have : mergeField none none = notFoundL := rfl
      rw [this]
      decide

lemma fb_month (t : List Char) :
    (fallback_search_whole_text t).month = monthFind (stripCommas t) := rfl

lemma fb_units (t : List Char) :
    (fallback_search_whole_text t).unitsConsumed =
      (match unitsBeforeFind (stripCommas t) with
       | some g => some g
       | none => unitsAfterFind (stripCommas t)) := rfl

lemma fb_load (t : List Char) :
    (fallback_search_whole_text t).loadSanctioned = (findAllKw (stripCommas t)).head? := rfl

lemma fb_contract (t : List Char) :
    (fallback_search_whole_text t).contractDemand =
      (match cdFind (stripCommas t) with
       | some v => some v
       | none => (findAllKw (stripCommas t))[1]?) := rfl

lemma fb_max (t : List Char) :
    (fallback_search_whole_text t).maximumDemand = mdFind (stripCommas t) := rfl

lemma parse_ne_some_nil (lines : List (List Char)) (f : BillField) :
    (parse_bidirectional lines).get f ≠ some [] := by
  rw [parse_get_eq_anchorSpec]
  intro h
  cases f <;> simp only [anchorSpec] at h <;>
    (obtain ⟨j, hj, hne⟩ := firstAnchorAux_some _ _ _ _ _ _ h; exact hne rfl)

lemma fb_ne_some_nil (t : List Char) (f : BillField) :
    (fallback_search_whole_text t).get f ≠ some [] := by
  cases f
  case month =>
    intro h
    have h' : monthFind (stripCommas t) = some [] := h
    obtain ⟨L, d4, hg, -, -, -, -⟩ := monthFind_shape _ _ h'
    exact monthShape_ne_nil [] L d4 hg rfl
  case unitsConsumed =>
    intro h
    have h' : (match unitsBeforeFind (stripCommas t) with
       | some g => some g
       | none => unitsAfterFind (stripCommas t)) = some [] := h
    cases hm : unitsBeforeFind (stripCommas t) with
    | some g =>
      rw [hm] at h'
      cases h'
      exact digits36B_ne_nil [] (unitsBeforeFind_shape _ _ hm) rfl
    | none =>
      rw [hm] at h'
      exact digits36B_ne_nil [] (unitsAfterFind_shape _ _ h') rfl
  case loadSanctioned =>
    intro h
    have h' : (findAllKw (stripCommas t)).head? = some [] := h
    have hmem : ([] : List Char) ∈ findAllKw (stripCommas t) := by
      rcases List.head?_eq_some_iff.mp h' with ⟨ys, hys⟩
      rw [hys]
      exact List.mem_cons_self _ _
    exact (findAllKw_shape _ _ hmem).1 rfl
  case contractDemand =>
    intro h
    have h' : (match cdFind (stripCommas t) with
       | some v => some v
       | none => (findAllKw (stripCommas t))[1]?) = some [] := h
    cases hm : cdFind (stripCommas t) with
    | some v =>
      rw [hm] at h'
      cases h'
      obtain ⟨tt, ht⟩ := cdFind_origin _ _ hm
      exact (numGroupOpt_shape _ _ ht).1 rfl
    | none =>
      rw [hm] at h'
      exact (findAllKw_shape _ _ (List.getElem?_mem h')).1 rfl
  case maximumDemand =>
    intro h
    have h' : mdFind (stripCommas t) = some [] := h
    obtain ⟨tt, ht⟩ := mdFind_origin _ _ h'
    exact (numGroupOpt_shape _ _ ht).1 rfl

lemma extract_get_merge (text : String) (f : BillField) :
    (extract_all_fields text).get f =
      ⟨mergeField ((parse_bidirectional (toLines text.data)).get f)
        ((fallback_search_whole_text text.data).get f)⟩ := by
  cases f <;> rfl

end BillExtractor

namespace BillExtractor

/-! ## Lemmas: substring occurrence (claim C7) -/

lemma isPrefixOf_iff_exists (pat s : List Char) :
    pat.isPrefixOf s = true ↔ ∃ tl, s = pat ++ tl := by
  rw [List.isPrefixOf_iff_prefix]
  constructor
  · rintro ⟨tl, htl⟩
    exact ⟨tl, htl.symm⟩
  · rintro ⟨tl, htl⟩
    exact ⟨tl, htl.symm⟩

lemma containsSub_cons (pat t : List Char) (a : Char) (h : containsSub pat t = true) :
    containsSub pat (a :: t) = true := by
  rw [containsSub, h, Bool.or_true]

lemma containsSub_of_isPrefixOf (pat s : List Char) (h : pat.isPrefixOf s = true) :
    containsSub pat s = true := by
  cases s with
  | nil => rw [containsSub]; exact h
  | cons a t => rw [containsSub, h, Bool.true_or]

lemma containsSub_iff (pat s : List Char) : containsSub pat s = true ↔ occursIn pat s := by
  induction s with
  | nil =>
    rw [containsSub, isPrefixOf_iff_exists]
    constructor
    · rintro ⟨tl, htl⟩
      exact ⟨[], tl, by simpa using htl⟩
    · rintro ⟨u, v, huv⟩
      obtain ⟨h12, hv⟩ := List.append_eq_nil.mp huv.symm
      obtain ⟨hu, hp⟩ := List.append_eq_nil.mp h12
      exact ⟨[], by simp [hp]⟩
  | cons c t ih =>
    rw [containsSub, Bool.or_eq_true, ih, isPrefixOf_iff_exists]
    constructor
    · rintro (⟨tl, htl⟩ | ⟨u, v, huv⟩)
      · exact ⟨[], tl, by simpa using htl⟩
      · exact ⟨c :: u, v, by simp [huv]⟩
    · rintro ⟨u, v, huv⟩
      cases u with
      | nil => exact Or.inl ⟨v, by simpa using huv⟩
      | cons x u' =>
        right
        rw [List.cons_append, List.cons_append] at huv
        injection huv with h1 h2
        exact ⟨u', v, by simpa using h2⟩

lemma occursIn_cons (pat s : List Char) (c : Char) (h : occursIn pat s) :
    occursIn pat (c :: s) := by
  obtain ⟨u, v, rfl⟩ := h
  exact ⟨c :: u, v, rfl⟩

lemma occursIn_trans (pat m s : List Char) (h1 : occursIn pat m) (h2 : occursIn m s) :
    occursIn pat s := by
  obtain ⟨u1, v1, rfl⟩ := h1
  obtain ⟨u2, v2, rfl⟩ := h2
  exact ⟨u2 ++ u1, v1 ++ v2, by simp⟩

lemma occursIn_map (f : Char → Char) (pat s : List Char) (h : occursIn pat s) :
    occursIn (pat.map f) (s.map f) := by
  obtain ⟨u, v, rfl⟩ := h
  exact ⟨u.map f, v.map f, by simp⟩

lemma occursIn_filter_of_all (p : Char → Bool) (pat s : List Char)
    (hp : ∀ c ∈ pat, p c = true) (h : occursIn pat s) : occursIn pat (s.filter p) := by
  obtain ⟨u, v, rfl⟩ := h
  refine ⟨u.filter p, v.filter p, ?_⟩
  simp [List.filter_append, List.filter_eq_self.mpr hp]

lemma splitLines_ne_nil (s : List Char) : splitLines s ≠ [] := by
  cases s with
  | nil => simp [splitLines]
  | cons c rest =>
    rw [splitLines]
    split
    · simp
    · split <;> simp

lemma splitLines_occurs (s : List Char) :
    (∀ p ∈ splitLines s, occursIn p s) ∧ (∃ r, s = (splitLines s).headD [] ++ r) := by
  induction s with
  | nil =>
    refine ⟨?_, ⟨[], rfl⟩⟩
    intro p hp
    simp [splitLines] at hp
    subst hp
    exact ⟨[], [], rfl⟩
  | cons c rest ih =>
    obtain ⟨ihall, r0, ihpre⟩ := ih
    by_cases hc : c = '\n'
    · subst hc
      have hs : splitLines ('\n' :: rest) = [] :: splitLines rest := by
        rw [splitLines, if_pos rfl]
      refine ⟨?_, ⟨'\n' :: rest, ?_⟩⟩
      · intro p hp
        rw [hs] at hp
        rcases List.mem_cons.mp hp with rfl | hmem
        · exact ⟨[], '\n' :: rest, rfl⟩
        · exact occursIn_cons _ _ _ (ihall p hmem)
      · rw [hs]
        rfl
    · obtain ⟨l, ls, hls⟩ : ∃ l ls, splitLines rest = l :: ls := by
        cases h : splitLines rest with
        | nil => exact absurd h (splitLines_ne_nil rest)
        | cons l ls => exact ⟨l, ls, rfl⟩
      have hs : splitLines (c :: rest) = (c :: l) :: ls := by
        rw [splitLines, if_neg hc, hls]
      rw [hls] at ihpre
      simp only [List.headD_cons] at ihpre
      constructor
      · intro p hp
        rw [hs] at hp
        rcases List.mem_cons.mp hp with rfl | hmem
        · exact ⟨[], r0, by simp [ihpre]⟩
        · refine occursIn_cons _ _ _ (ihall p ?_)
          rw [hls]
          exact List.mem_cons_of_mem _ hmem
      · refine ⟨r0, ?_⟩
        rw [hs]
        simp only [List.headD_cons, List.cons_append]
        rw [← ihpre]

lemma pyStrip_occurs (l : List Char) : occursIn (pyStrip l) l := by
  unfold pyStrip
  set m := l.dropWhile isSpaceChar with hm
  have hsplit : m = (m.reverse.dropWhile isSpaceChar).reverse ++
      (m.reverse.takeWhile isSpaceChar).reverse := by
    rw [← List.reverse_append, List.takeWhile_append_dropWhile, List.reverse_reverse]
  refine ⟨l.takeWhile isSpaceChar, (m.reverse.takeWhile isSpaceChar).reverse, ?_⟩
  conv_lhs => rw [← List.takeWhile_append_dropWhile isSpaceChar l, ← hm, hsplit]
  rw [List.append_assoc]

lemma toLines_occurs (text : List Char) : ∀ l ∈ toLines text, occursIn l text := by
  intro l hl
  unfold toLines at hl
  have hl2 := List.mem_of_mem_filter hl
  obtain ⟨piece, hpiece, rfl⟩ := List.mem_map.mp hl2
  exact occursIn_trans _ _ _ (pyStrip_occurs piece) ((splitLines_occurs text).1 piece hpiece)

lemma asciiLower_eq_comma (c : Char) (h : asciiLower c = ',') : c = ',' := by
  unfold asciiLower at h
  split at h <;> simp_all

lemma stripCommas_lowerL (t : List Char) :
    stripCommas (lowerL t) = lowerL (stripCommas t) := by
  induction t with
  | nil => rfl
  | cons c rest ih =>
    show stripCommas (asciiLower c :: lowerL rest) = lowerL (stripCommas (c :: rest))
    by_cases hc : c = ','
    · subst hc
      have h1 : stripCommas (',' :: lowerL rest) = stripCommas (lowerL rest) := by
        simp [stripCommas]
      have h2 : stripCommas (',' :: rest) = stripCommas rest := by
        simp [stripCommas]
      rw [show asciiLower ',' = ',' from rfl, h1, h2, ih]
    · have ha : asciiLower c ≠ ',' := fun h => hc (asciiLower_eq_comma c h)
      have h1 : stripCommas (asciiLower c :: lowerL rest) =
          asciiLower c :: stripCommas (lowerL rest) := by
        simp [stripCommas, ha]
      have h2 : stripCommas (c :: rest) = c :: stripCommas rest := by
        simp [stripCommas, hc]
      rw [h1, h2, ih]
      rfl

lemma label_occurs_in_cleaned_lower (text l pat : List Char)
    (hl : l ∈ toLines text) (hc : containsSub pat (lowerL l) = true)
    (hpat : ∀ c ∈ pat, ¬ c = ',') :
    containsSub pat (stripCommas (lowerL text)) = true := by
  rw [containsSub_iff] at hc ⊢
  have h1 : occursIn (lowerL l) (lowerL text) :=
    occursIn_map asciiLower _ _ (toLines_occurs text l hl)
  have h2 : occursIn pat (lowerL text) := occursIn_trans _ _ _ hc h1
  exact occursIn_filter_of_all _ _ _ (fun c hcc => by simpa using hpat c hcc) h2

lemma cdFind_label : ∀ (s g : List Char), cdFind s = some g →
    containsSub sContractDemand (lowerL s) = true ∨
      containsSub sContDemand (lowerL s) = true := by
  intro s
  induction s with
  | nil => intro g h; cases h
  | cons c rest ih =>
    intro g h
    rw [cdFind] at h
    cases hmatch : tryCdAt (c :: rest) with
    | none =>
      rw [hmatch] at h
      have hcons : lowerL (c :: rest) = asciiLower c :: lowerL rest := rfl
      rcases ih g h with h1 | h1
      · left; rw [hcons]; exact containsSub_cons _ _ _ h1
      · right; rw [hcons]; exact containsSub_cons _ _ _ h1
    | some g' =>
      rw [hmatch] at h
      unfold tryCdAt at hmatch
      split at hmatch
      · next hcp => exact Or.inl (containsSub_of_isPrefixOf _ _ hcp)
      · split at hmatch
        · next hcp => exact Or.inr (containsSub_of_isPrefixOf _ _ hcp)
        · cases hmatch

lemma parse_load_none (text : List Char)
    (h : containsSub sLoadSanctioned (stripCommas (lowerL text)) = false) :
    (parse_bidirectional (toLines text)).loadSanctioned = none := by
  have heq : (parse_bidirectional (toLines text)).loadSanctioned =
      anchorSpec (toLines text) .loadSanctioned :=
    parse_get_eq_anchorSpec (toLines text) .loadSanctioned
  rw [heq]
  apply firstAnchorAux_none
  intro l hl
  cases hlb : labelLoadB l with
  | false => rfl
  | true =>
    exfalso
    have := label_occurs_in_cleaned_lower text l sLoadSanctioned hl hlb (by decide)
    rw [this] at h
    cases h

lemma parse_contract_none (text : List Char)
    (h1 : containsSub sContractDemand (stripCommas (lowerL text)) = false)
    (h2 : containsSub sContDemand (stripCommas (lowerL text)) = false) :
    (parse_bidirectional (toLines text)).contractDemand = none := by
  have heq : (parse_bidirectional (toLines text)).contractDemand =
      anchorSpec (toLines text) .contractDemand :=
    parse_get_eq_anchorSpec (toLines text) .contractDemand
  rw [heq]
  apply firstAnchorAux_none
  intro l hl
  cases hlb : labelContractB l with
  | false => rfl
  | true =>
    exfalso
    rcases Bool.or_eq_true_iff.mp hlb with hx | hx
    · have := label_occurs_in_cleaned_lower text l sContractDemand hl hx (by decide)
      rw [this] at h1
      cases h1
    · have := label_occurs_in_cleaned_lower text l sContDemand hl hx (by decide)
      rw [this] at h2
      cases h2

lemma mergeField_none_some (b : List Char) (hb : b ≠ []) :
    mergeField none (some b) = replace00000 b := by
  have hv : b.isEmpty = false := by
    cases b with
    | nil => exact absurd rfl hb
    | cons x xs => rfl
  simp [mergeField, pyTruthy, hv]

lemma mergeField_some (v : List Char) (b : Option (List Char)) (hv : v ≠ []) :
    mergeField (some v) b = replace00000 v := by
  have hv' : v.isEmpty = false := by
    cases v with
    | nil => exact absurd rfl hv
    | cons x xs => rfl
  simp [mergeField, pyTruthy, hv']

end BillExtractor

namespace BillExtractor

/-! ## Lemmas: normalisation and output shape (claims C8, C10) -/

lemma replAux_subset : ∀ (fuel : Nat) (s : List Char) (c : Char),
    c ∈ replAux fuel s → c ∈ s := by
  intro fuel
  induction fuel with
  | zero =>
    intro s c h
    cases s with
    | nil => cases h
    | cons a rest => exact h
  | succ fuel ih =>
    intro s c h
    cases s with
    | nil => cases h
    | cons a rest =>
      rw [replAux] at h
      split at h
      · exact List.mem_cons_of_mem _ (List.drop_subset _ _ (ih _ c h))
      · rcases List.mem_cons.mp h with rfl | h2
        · exact List.mem_cons_self _ _
        · exact List.mem_cons_of_mem _ (ih _ c h2)

lemma replace00000_subset (s : List Char) (c : Char) (h : c ∈ replace00000 s) : c ∈ s :=
  replAux_subset s.length s c h

lemma replAux_no_dot : ∀ (fuel : Nat) (s : List Char), '.' ∉ s → replAux fuel s = s := by
  intro fuel
  induction fuel with
  | zero =>
    intro s h
    cases s <;> rfl
  | succ fuel ih =>
    intro s h
    cases s with
    | nil => rfl
    | cons c rest =>
      rw [replAux, if_neg, ih rest (fun hh => h (List.mem_cons_of_mem _ hh))]
      intro hp
      rcases (isPrefixOf_iff_exists _ _).mp hp with ⟨tl, htl⟩
      rw [show sDot00000 = '.' :: "00000".data from rfl, List.cons_append] at htl
      injection htl with h1 h2
      exact h (h1 ▸ List.mem_cons_self c rest)

lemma replace00000_no_dot (s : List Char) (h : '.' ∉ s) : replace00000 s = s :=
  replAux_no_dot s.length s h

lemma isSpaceChar_cases (c : Char) (h : isSpaceChar c = true) :
    c = ' ' ∨ c = '\t' ∨ c = '\n' ∨ c = '\r' ∨ c = '\x0b' ∨ c = '\x0c' := by
  simp only [isSpaceChar, Bool.or_eq_true, beq_iff_eq] at h
  tauto

lemma cleanChar_of_alpha (c : Char) (h : isAlphaChar c = true) : cleanCharB c = true := by
  unfold cleanCharB
  have h1 : (c == ',') = false := by
    cases hc : c == ','
    · rfl
    · rw [show c = ',' from beq_iff_eq.mp hc] at h
      exact absurd h (by decide)
  have h2 : isSpaceChar c = false := by
    cases hs : isSpaceChar c
    · rfl
    · exfalso
      rcases isSpaceChar_cases c hs with rfl | rfl | rfl | rfl | rfl | rfl <;>
        exact absurd h (by decide)
  have h3 : (c == '.') = false := by
    cases hc : c == '.'
    · rfl
    · rw [show c = '.' from beq_iff_eq.mp hc] at h
      exact absurd h (by decide)
  rw [h1, h2, h3]
  rfl

lemma cleanChar_of_digit (c : Char) (h : isDigitChar c = true) : cleanCharB c = true := by
  unfold cleanCharB
  have h1 : (c == ',') = false := by
    cases hc : c == ','
    · rfl
    · rw [show c = ',' from beq_iff_eq.mp hc] at h
      exact absurd h (by decide)
  have h2 : isSpaceChar c = false := by
    cases hs : isSpaceChar c
    · rfl
    · exfalso
      rcases isSpaceChar_cases c hs with rfl | rfl | rfl | rfl | rfl | rfl <;>
        exact absurd h (by decide)
  have h3 : (c == '.') = false := by
    cases hc : c == '.'
    · rfl
    · rw [show c = '.' from beq_iff_eq.mp hc] at h
      exact absurd h (by decide)
  rw [h1, h2, h3]
  rfl

lemma noCommaWs_of_clean (c : Char) (h : cleanCharB c = true) : noCommaWsB c = true := by
  unfold cleanCharB at h
  unfold noCommaWsB
  simp only [Bool.and_eq_true] at h
  rw [h.1.1, h.1.2]
  rfl

lemma noCommaWs_of_dot : noCommaWsB '.' = true := by decide

lemma cleanChar_dash : cleanCharB '-' = true := by decide

lemma takeWhile_append_of_all (p : Char → Bool) (L : List Char)
    (h : ∀ c ∈ L, p c = true) :
    ∀ (x : Char) (t : List Char), p x = false → (L ++ x :: t).takeWhile p = L := by
  induction L with
  | nil =>
    intro x t hx
    simp [List.takeWhile_cons, hx]
  | cons a L ih =>
    intro x t hx
    have ha := h a (List.mem_cons_self _ _)
    simp [List.takeWhile_cons, ha,
      ih (fun c hc => h c (List.mem_cons_of_mem _ hc)) x t hx]

lemma monthShapeB_of_shape (v L d4 : List Char) (hg : v = L ++ '-' :: d4)
    (hL : ∀ c ∈ L, isAlphaChar c = true) (hL3 : 3 ≤ L.length)
    (hlen : d4.length = 4) (hd : ∀ c ∈ d4, isDigitChar c = true) :
    monthShapeB v = true := by
  subst hg
  simp only [monthShapeB]
  rw [takeWhile_append_of_all isAlphaChar L hL '-' d4 (by decide), List.drop_left]
  simp only [Bool.and_eq_true, decide_eq_true_eq, beq_iff_eq, List.all_eq_true]
  exact ⟨⟨hL3, hlen⟩, hd⟩

/-! Values that can reach a given field of the final result -/

lemma mergeField_cases (a b : Option (List Char)) :
    mergeField a b = notFoundL ∨
      ∃ v, v ≠ [] ∧ (a = some v ∨ b = some v) ∧ mergeField a b = replace00000 v := by
  cases a with
  | some v =>
    cases v with
    | nil =>
      cases b with
      | some w =>
        cases w with
        | nil => left; rfl
        | cons x xs =>
          right
          have hm : mergeField (some []) (some (x :: xs)) = replace00000 (x :: xs) := by
            simp [mergeField, pyTruthy]
          exact ⟨x :: xs, by simp, Or.inr rfl, hm⟩
      | none => left; rfl
    | cons x xs =>
      right
      exact ⟨x :: xs, by simp, Or.inl rfl, mergeField_some _ b (by simp)⟩
  | none =>
    cases b with
    | some w =>
      cases w with
      | nil => left; rfl
      | cons x xs => right; exact ⟨x :: xs, by simp, Or.inr rfl, mergeField_none_some _ (by simp)⟩
    | none => left; rfl

lemma final_cases (text : String) (f : BillField) :
    (extract_all_fields text).get f = "Not Found" ∨
      ∃ v, v ≠ [] ∧
        ((parse_bidirectional (toLines text.data)).get f = some v ∨
          (fallback_search_whole_text text.data).get f = some v) ∧
        (extract_all_fields text).get f = ⟨replace00000 v⟩ := by
  rcases mergeField_cases ((parse_bidirectional (toLines text.data)).get f)
      ((fallback_search_whole_text text.data).get f) with h | ⟨v, hne, hsrc, heq⟩
  · left
    rw [extract_get_merge, h]
    decide
  · right
    exact ⟨v, hne, hsrc, by rw [extract_get_merge, heq]⟩

lemma search_month_around_origin (lines : List (List Char)) (idx moff : Nat)
    (h : search_month_around lines idx moff ≠ []) :
    ∃ t, monthFind t = some (search_month_around lines idx moff) := by
  unfold search_month_around at h ⊢
  rcases firstHit_cases _ (sortStable (distance_score idx) (indices_to_check lines.length idx moff))
    with h0 | ⟨i, _, heq, hne⟩
  · exact absurd h0 h
  · cases hm : monthFind (lines.getD i []) with
    | none =>
      rw [hm] at hne
      exact absurd rfl hne
    | some g =>
      refine ⟨lines.getD i [], ?_⟩
      rw [hm, heq, hm]
      rfl

lemma search_units_around_origin (lines : List (List Char)) (idx moff : Nat)
    (h : search_units_consumed_around lines idx moff ≠ []) :
    ∃ t, digits36Find t = some (search_units_consumed_around lines idx moff) := by
  unfold search_units_consumed_around at h ⊢
  rcases firstHit_cases _ (sortStable (distance_score idx) (indices_to_check lines.length idx moff))
    with h0 | ⟨i, _, heq, hne⟩
  · exact absurd h0 h
  · cases hm : digits36Find (stripCommas (lines.getD i [])) with
    | none =>
      rw [hm] at hne
      exact absurd rfl hne
    | some g =>
      refine ⟨stripCommas (lines.getD i []), ?_⟩
      rw [hm, heq, hm]
      rfl

lemma search_numeric_around_chars (lines : List (List Char)) (idx moff : Nat) :
    ∀ c ∈ search_numeric_around lines idx moff, numCharB c = true := by
  intro c hc
  unfold search_numeric_around at hc
  rcases firstHit_cases _ (sortStable (distance_score idx) (indices_to_check lines.length idx moff))
    with h0 | ⟨i, _, heq, hne⟩
  · rw [h0] at hc
    cases hc
  · rw [heq] at hc
    exact extract_first_numeric_chars _ c hc

lemma month_value_shape (text : List Char) (v : List Char)
    (hsome : (parse_bidirectional (toLines text)).month = some v ∨
             (fallback_search_whole_text text).month = some v) :
    ∃ L d4, v = L ++ '-' :: d4 ∧ (∀ c ∈ L, isAlphaChar c = true) ∧ 3 ≤ L.length ∧
      d4.length = 4 ∧ (∀ c ∈ d4, isDigitChar c = true) := by
  rcases hsome with h | h
  · have h' : (parse_bidirectional (toLines text)).get .month = some v := h
    rw [parse_get_eq_anchorSpec] at h'
    simp only [anchorSpec] at h'
    obtain ⟨j, hv, hne⟩ := firstAnchorAux_some _ _ _ _ _ _ h'
    subst hv
    obtain ⟨t, ht⟩ := search_month_around_origin (toLines text) j 3 hne
    exact monthFind_shape _ _ ht
  · exact monthFind_shape _ _ h

lemma units_value_shape (text : List Char) (v : List Char)
    (hsome : (parse_bidirectional (toLines text)).unitsConsumed = some v ∨
             (fallback_search_whole_text text).unitsConsumed = some v) :
    digits36B v = true := by
  rcases hsome with h | h
  · have h' : (parse_bidirectional (toLines text)).get .unitsConsumed = some v := h
    rw [parse_get_eq_anchorSpec] at h'
    simp only [anchorSpec] at h'
    obtain ⟨j, hv, hne⟩ := firstAnchorAux_some _ _ _ _ _ _ h'
    subst hv
    obtain ⟨t, ht⟩ := search_units_around_origin (toLines text) j 3 hne
    exact digits36Find_shape _ _ ht
  · have h' : (match unitsBeforeFind (stripCommas text) with
       | some g => some g
       | none => unitsAfterFind (stripCommas text)) = some v := h
    cases hm : unitsBeforeFind (stripCommas text) with
    | some g =>
      rw [hm] at h'
      cases h'
      exact unitsBeforeFind_shape _ _ hm
    | none =>
      rw [hm] at h'
      exact unitsAfterFind_shape _ _ h'

lemma numeric_value_chars (text : List Char) (f : BillField) (v : List Char)
    (hf : f = .loadSanctioned ∨ f = .contractDemand ∨ f = .maximumDemand)
    (hsome : (parse_bidirectional (toLines text)).get f = some v ∨
             (fallback_search_whole_text text).get f = some v) :
    ∀ c ∈ v, numCharB c = true := by
  rcases hsome with h | h
  · rw [parse_get_eq_anchorSpec] at h
    rcases hf with rfl | rfl | rfl <;>
      (simp only [anchorSpec] at h;
       obtain ⟨j, hv, hne⟩ := firstAnchorAux_some _ _ _ _ _ _ h;
       subst hv;
       exact search_numeric_around_chars (toLines text) j 3)
  · rcases hf with rfl | rfl | rfl
    · have h' : (findAllKw (stripCommas text)).head? = some v := h
      have hmem : v ∈ findAllKw (stripCommas text) := by
        rcases List.head?_eq_some_iff.mp h' with ⟨ys, hys⟩
        rw [hys]
        exact List.mem_cons_self _ _
      exact (findAllKw_shape _ _ hmem).2
    · have h' : (match cdFind (stripCommas text) with
         | some w => some w
         | none => (findAllKw (stripCommas text))[1]?) = some v := h
      cases hm : cdFind (stripCommas text) with
      | some w =>
        rw [hm] at h'
        cases h'
        obtain ⟨t, ht⟩ := cdFind_origin _ _ hm
        exact (numGroupOpt_shape _ _ ht).2
      | none =>
        rw [hm] at h'
        exact (findAllKw_shape _ _ (List.getElem?_mem h')).2
    · have h' : mdFind (stripCommas text) = some v := h
      obtain ⟨t, ht⟩ := mdFind_origin _ _ h'
      exact (numGroupOpt_shape _ _ ht).2

end BillExtractor

namespace BillExtractor

/-! ## Claim theorems -/

/-- C1: totality of extraction — `extract_all_fields` always returns a
complete result whose five components are strings (so no field-level
failure can surface as an exception), and on the empty input every field
is the sentinel "Not Found". -/
theorem C1_totality :
    (∀ s : String, ∃ m u l c d : String, extract_all_fields s = ⟨m, u, l, c, d⟩) ∧
      extract_all_fields "" =
        ⟨"Not Found", "Not Found", "Not Found", "Not Found", "Not Found"⟩ :=
  ⟨fun s => ⟨(extract_all_fields s).month, (extract_all_fields s).unitsConsumed,
    (extract_all_fields s).loadSanctioned, (extract_all_fields s).contractDemand,
    (extract_all_fields s).maximumDemand, rfl⟩, by decide⟩

/-- C2 counterexample: the claim asserts Units Consumed = "4018" for the
jammed line, but the code performs no date removal and returns "401803". -/
theorem C2_counterexample :
    (extract_all_fields "4,01803-Apr-2025 Units consumed").unitsConsumed ≠ "4018" := by
  decide

/-- C2 (amended): the anchored Units search performs no date-substring
removal; it only strips commas before taking the first word-bounded 3-6
digit run, so the jammed line "4,01803-Apr-2025 Units consumed" yields
"401803" (the unit digits concatenated with the leading date digits). -/
theorem C2_no_date_removal :
    (extract_all_fields "4,01803-Apr-2025 Units consumed").unitsConsumed = "401803" := by
  decide

/-- C3: the around-anchor searches (numeric and month) examine exactly the
candidates of the claimed order — anchor line first, then at each distance
1, 2, 3 the line above before the line below, clipped to the range — and
return the first candidate whose text yields a value; every candidate of
that order is within distance 3 of the anchor. -/
theorem C3_neighborhood_order (lines : List (List Char)) (idx : Nat) :
    search_numeric_around lines idx 3 =
      firstHit (fun i => extract_first_numeric (lines.getD i []))
        (claimedOrder lines.length idx) ∧
    search_month_around lines idx 3 =
      firstHit (fun i => (monthFind (lines.getD i [])).getD [])
        (claimedOrder lines.length idx) ∧
    (claimedOrder lines.length idx).all (fun j => decide (distance_score idx j ≤ 3)) = true := by
  refine ⟨?_, ?_, ?_⟩
  · unfold search_numeric_around
    rw [sorted_indices_eq]
  · unfold search_month_around
    rw [sorted_indices_eq]
  · rw [List.all_eq_true]
    intro j hj
    exact decide_eq_true (claimedOrder_dist lines.length idx j hj)

/-- C4: earliest-anchor-wins — the single left-to-right scan of
`parse_bidirectional` resolves each field to the value found around the
first anchor occurrence that yields a value, and never overwrites it;
formally, the scan equals the first-anchor specification for every field. -/
theorem C4_earliest_anchor_wins (lines : List (List Char)) (f : BillField) :
    (parse_bidirectional lines).get f = anchorSpec lines f :=
  parse_get_eq_anchorSpec lines f

/-- C5 counterexample: with "Total units" as the only Units label, the
label-anchored search leaves Units Consumed unresolved, contradicting the
claim that "total units" is an anchored-search synonym. -/
theorem C5_counterexample :
    (parse_bidirectional (toLines "Total units\n4018".data)).unitsConsumed = none := by
  decide

/-- C5 (amended): the anchored engine recognises only "units consumed" as
a Units Consumed label — if no line contains that substring the anchored
result is `none` — while "total units"/"net units supplied" are handled
only by the whole-text fallback, which resolves "Total units\n4018". -/
theorem C5_units_synonyms :
    (∀ lines : List (List Char),
      (∀ l ∈ lines, labelUnitsB l = false) →
        (parse_bidirectional lines).unitsConsumed = none) ∧
    (extract_all_fields "Total units\n4018").unitsConsumed = "4018" := by
  constructor
  · intro lines h
    have heq : (parse_bidirectional lines).unitsConsumed =
        anchorSpec lines .unitsConsumed :=
      parse_get_eq_anchorSpec lines .unitsConsumed
    rw [heq]
    exact firstAnchorAux_none _ _ _ lines 0 h
  · decide

theorem C5_units_synonyms_witness :
    (parse_bidirectional (toLines "no anchored label here 4018".data)).unitsConsumed = none :=
  C5_units_synonyms.1 _ (by decide)

/-- C6: the whole-text fallback pattern `(\d+(?:\.\d+))\s*(?:KW|KVA)` lacks
the `?` on the fractional group, so the integer form "120 KW" matches
nothing and Sanctioned Load stays "Not Found", while "120.0 KW" resolves;
this contradicts the claim (and the code's own comment "grab all
numbers"). -/
theorem C6_integer_tag_missed :
    (fallback_search_whole_text "120 KW".data).loadSanctioned = none ∧
    (extract_all_fields "120 KW").loadSanctioned = "Not Found" ∧
    (extract_all_fields "120.0 KW").loadSanctioned = "120.0" := by
  refine ⟨?_, ?_, ?_⟩ <;> decide

/-- C7 counterexample: this input has exactly two decimal KVA-tagged
numbers and no Contract-Demand label, yet Sanctioned Load is "99" (from
the "Load Sanctioned" anchor), not the first tagged number "35.5". -/
theorem C7_counterexample :
    findAllKw (stripCommas "Load Sanctioned 99\n35.5 KVA\n42.5 KVA".data) =
        ["35.5".data, "42.5".data] ∧
    containsSub sContractDemand
        (lowerL "Load Sanctioned 99\n35.5 KVA\n42.5 KVA".data) = false ∧
    containsSub sContDemand
        (lowerL "Load Sanctioned 99\n35.5 KVA\n42.5 KVA".data) = false ∧
    (extract_all_fields "Load Sanctioned 99\n35.5 KVA\n42.5 KVA").loadSanctioned = "99" ∧
    (extract_all_fields "Load Sanctioned 99\n35.5 KVA\n42.5 KVA").loadSanctioned ≠ "35.5" := by
  refine ⟨?_, ?_, ?_, ?_, ?_⟩ <;> decide

/-- C7 (amended): if the text contains no Contract-Demand label and no
Load-Sanctioned label (so neither demand field resolves via an anchor) and
exactly two KW/KVA-tagged decimal numbers, then Sanctioned Load gets the
first and Contract Demand the second (normalised); and whenever the
labelled Contract-Demand fallback pattern matches, its value determines
the fallback's Contract Demand instead of the second tagged number. -/
theorem C7_positional_fallback :
    (∀ (text : String) (a b : List Char),
      containsSub sContractDemand (stripCommas (lowerL text.data)) = false →
      containsSub sContDemand (stripCommas (lowerL text.data)) = false →
      containsSub sLoadSanctioned (stripCommas (lowerL text.data)) = false →
      findAllKw (stripCommas text.data) = [a, b] →
      (extract_all_fields text).loadSanctioned = ⟨replace00000 a⟩ ∧
        (extract_all_fields text).contractDemand = ⟨replace00000 b⟩) ∧
    (∀ (t v : List Char), cdFind (stripCommas t) = some v →
      (fallback_search_whole_text t).contractDemand = some v) := by
  constructor
  · intro text a b h1 h2 h3 h4
    have hane : a ≠ [] :=
      (findAllKw_shape _ _ (by rw [h4]; exact List.mem_cons_self _ _)).1
    have hbne : b ≠ [] :=
      (findAllKw_shape _ _
        (by rw [h4]; exact List.mem_cons_of_mem _ (List.mem_cons_self _ _))).1
    have hcd : cdFind (stripCommas text.data) = none := by
      cases hm : cdFind (stripCommas text.data) with
      | none => rfl
      | some v =>
        exfalso
        rcases cdFind_label _ _ hm with hx | hx
        · rw [stripCommas_lowerL, hx] at h1
          cases h1
        · rw [stripCommas_lowerL, hx] at h2
          cases h2
    have hfbl : (fallback_search_whole_text text.data).get .loadSanctioned = some a := by
      show (fallback_search_whole_text text.data).loadSanctioned = some a
      rw [fb_load, h4]
      rfl
    have hfbc : (fallback_search_whole_text text.data).get .contractDemand = some b := by
      show (fallback_search_whole_text text.data).contractDemand = some b
      rw [fb_contract, hcd, h4]
      rfl
    have hlbl : (parse_bidirectional (toLines text.data)).get .loadSanctioned = none :=
      parse_load_none text.data h3
    have hlbc : (parse_bidirectional (toLines text.data)).get .contractDemand = none :=
      parse_contract_none text.data h1 h2
    constructor
    · have hmg := extract_get_merge text .loadSanctioned
      rw [hlbl, hfbl, mergeField_none_some a hane] at hmg
      exact hmg
    · have hmg := extract_get_merge text .contractDemand
      rw [hlbc, hfbc, mergeField_none_some b hbne] at hmg
      exact hmg
  · intro t v h
    show (fallback_search_whole_text t).contractDemand = some v
    rw [fb_contract, h]

theorem C7_positional_fallback_witness :
    (extract_all_fields "35.5 KVA\n42.5 KVA").loadSanctioned = "35.5" ∧
    (extract_all_fields "35.5 KVA\n42.5 KVA").contractDemand = "42.5" ∧
    (fallback_search_whole_text "Contract Demand 42".data).contractDemand =
      some "42".data := by
  have h := C7_positional_fallback.1 "35.5 KVA\n42.5 KVA" "35.5".data "42.5".data
    (by decide) (by decide) (by decide) (by decide)
  refine ⟨?_, ?_, ?_⟩
  · rw [h.1]
    decide
  · rw [h.2]
    decide
  · exact C7_positional_fallback.2 "Contract Demand 42".data "42".data (by decide)

/-- C8 counterexample: `chosen.replace(".00000", "")` removes an interior
occurrence, so "Maximum Demand 25.000001" yields "251" rather than the
"25.000001" that removing only an exact trailing ".00000" suffix would
produce. -/
theorem C8_counterexample :
    (extract_all_fields "Maximum Demand 25.000001").maximumDemand = "251" ∧
    (extract_all_fields "Maximum Demand 25.000001").maximumDemand ≠ "25.000001" := by
  refine ⟨?_, ?_⟩ <;> decide

/-- C8 (amended): every resolved value has its commas stripped and no
whitespace, and every occurrence of the substring ".00000" is removed (not
only a trailing suffix); "Net Max Demand 108.00000" → "108", the candidate
"4,018" → "4018", and "9.000005" → "95". -/
theorem C8_normalization :
    (∀ (s : String) (f : BillField), (extract_all_fields s).get f ≠ "Not Found" →
      ((extract_all_fields s).get f).data.all noCommaWsB = true) ∧
    (extract_all_fields "Net Max Demand 108.00000").maximumDemand = "108" ∧
    (extract_all_fields "Units consumed 4,018").unitsConsumed = "4018" ∧
    (extract_all_fields "Contract Demand 9.000005").contractDemand = "95" := by
  refine ⟨?_, by decide, by decide, by decide⟩
  intro s f hne
  rcases final_cases s f with h | ⟨v, hvne, hsrc, heq⟩
  · exact absurd h hne
  · rw [heq, List.all_eq_true]
    intro c hc
    have hcv : c ∈ v := replace00000_subset v c hc
    cases f with
    | month =>
      obtain ⟨L, d4, hg, hL, hL3, hlen, hd⟩ := month_value_shape s.data v hsrc
      rcases List.mem_append.mp (hg ▸ hcv) with h1 | h1
      · exact noCommaWs_of_clean c (cleanChar_of_alpha c (hL c h1))
      · rcases List.mem_cons.mp h1 with rfl | h2
        · exact noCommaWs_of_clean _ cleanChar_dash
        · exact noCommaWs_of_clean c (cleanChar_of_digit c (hd c h2))
    | unitsConsumed =>
      have hsh := units_value_shape s.data v hsrc
      simp only [digits36B, Bool.and_eq_true, List.all_eq_true, decide_eq_true_eq] at hsh
      exact noCommaWs_of_clean c (cleanChar_of_digit c (hsh.1.1 c hcv))
    | loadSanctioned =>
      have hn := numeric_value_chars s.data .loadSanctioned v (Or.inl rfl) hsrc c hcv
      rcases Bool.or_eq_true_iff.mp hn with h1 | h1
      · exact noCommaWs_of_clean c (cleanChar_of_digit c h1)
      · rw [show c = '.' from beq_iff_eq.mp h1]
        exact noCommaWs_of_dot
    | contractDemand =>
      have hn := numeric_value_chars s.data .contractDemand v (Or.inr (Or.inl rfl)) hsrc c hcv
      rcases Bool.or_eq_true_iff.mp hn with h1 | h1
      · exact noCommaWs_of_clean c (cleanChar_of_digit c h1)
      · rw [show c = '.' from beq_iff_eq.mp h1]
        exact noCommaWs_of_dot
    | maximumDemand =>
      have hn := numeric_value_chars s.data .maximumDemand v (Or.inr (Or.inr rfl)) hsrc c hcv
      rcases Bool.or_eq_true_iff.mp hn with h1 | h1
      · exact noCommaWs_of_clean c (cleanChar_of_digit c h1)
      · rw [show c = '.' from beq_iff_eq.mp h1]
        exact noCommaWs_of_dot

theorem C8_normalization_witness :
    (extract_all_fields "Net Max Demand 108.00000").maximumDemand ≠ "Not Found" ∧
    ((extract_all_fields "Net Max Demand 108.00000").maximumDemand).data.all
      noCommaWsB = true :=
  ⟨by decide,
    C8_normalization.1 "Net Max Demand 108.00000" .maximumDemand (by decide)⟩

/-- C9: resolver preference — for every input and field, the final value is
the normalised anchored value if the anchored search produced one, else
the normalised fallback value if that produced one, else "Not Found". -/
theorem C9_resolver_preference (text : String) (f : BillField) :
    (extract_all_fields text).get f =
      resolveSpec ((parse_bidirectional (toLines text.data)).get f)
        ((fallback_search_whole_text text.data).get f) := by
  rw [extract_get_merge]
  exact mergeField_resolve _ _ (parse_ne_some_nil _ f) (fb_ne_some_nil _ f)

/-- C10: output-shape invariant — a resolved Month matches
`letters{3,}-digits{4}` and a resolved Units Consumed is a 3-to-6 digit
string; neither contains a comma, whitespace, or a decimal point. -/
theorem C10_output_shape (s : String) :
    ((extract_all_fields s).month ≠ "Not Found" →
      monthShapeB (extract_all_fields s).month.data = true ∧
        (extract_all_fields s).month.data.all cleanCharB = true) ∧
    ((extract_all_fields s).unitsConsumed ≠ "Not Found" →
      digits36B (extract_all_fields s).unitsConsumed.data = true ∧
        (extract_all_fields s).unitsConsumed.data.all cleanCharB = true) := by
  constructor
  · intro hne
    rcases final_cases s .month with h | ⟨v, hvne, hsrc, heq⟩
    · exact absurd h hne
    · obtain ⟨L, d4, hg, hL, hL3, hlen, hd⟩ := month_value_shape s.data v hsrc
      have hnd : '.' ∉ v := by
        intro hdot
        rcases List.mem_append.mp (hg ▸ hdot) with h1 | h1
        · exact absurd (hL _ h1) (by decide)
        · rcases List.mem_cons.mp h1 with he | h2
          · exact absurd he (by decide)
          · exact absurd (hd _ h2) (by decide)
      have hfinal : (extract_all_fields s).month = ⟨v⟩ := by
        have h0 : (extract_all_fields s).month = (extract_all_fields s).get .month := rfl
        rw [h0, heq, replace00000_no_dot v hnd]
      rw [hfinal]
      refine ⟨monthShapeB_of_shape v L d4 hg hL hL3 hlen hd, ?_⟩
      rw [List.all_eq_true]
      intro c hc
      have hcv : c ∈ v := hc
      rcases List.mem_append.mp (hg ▸ hcv) with h1 | h1
      · exact cleanChar_of_alpha c (hL c h1)
      · rcases List.mem_cons.mp h1 with rfl | h2
        · exact cleanChar_dash
        · exact cleanChar_of_digit c (hd c h2)
  · intro hne
    rcases final_cases s .unitsConsumed with h | ⟨v, hvne, hsrc, heq⟩
    · exact absurd h hne
    · have hsh := units_value_shape s.data v hsrc
      have hsh' := hsh
      simp only [digits36B, Bool.and_eq_true, List.all_eq_true, decide_eq_true_eq] at hsh'
      have hnd : '.' ∉ v := fun hdot => absurd (hsh'.1.1 _ hdot) (by decide)
      have hfinal : (extract_all_fields s).unitsConsumed = ⟨v⟩ := by
        have h0 : (extract_all_fields s).unitsConsumed =
          (extract_all_fields s).get .unitsConsumed := rfl
        rw [h0, heq, replace00000_no_dot v hnd]
      rw [hfinal]
      refine ⟨hsh, ?_⟩
      rw [List.all_eq_true]
      intro c hc
      exact cleanChar_of_digit c (hsh'.1.1 c hc)

theorem C10_output_shape_witness :
    ((extract_all_fields "Month MAR-2025\nUnits consumed 4018").month ≠ "Not Found" ∧
      monthShapeB (extract_all_fields "Month MAR-2025\nUnits consumed 4018").month.data
        = true) ∧
    ((extract_all_fields "Month MAR-2025\nUnits consumed 4018").unitsConsumed ≠
        "Not Found" ∧
      digits36B
        (extract_all_fields "Month MAR-2025\nUnits consumed 4018").unitsConsumed.data
        = true) :=
  ⟨⟨by decide, ((C10_output_shape "Month MAR-2025\nUnits consumed 4018").1 (by decide)).1⟩,
   ⟨by decide, ((C10_output_shape "Month MAR-2025\nUnits consumed 4018").2 (by decide)).1⟩⟩

end BillExtractor
